import Mathlib

/-!
Shallow embedding of the grantmatch repository's core logic
(grants/services.py and grants/views.py) and verification of the
specification's claims about it.

Python strings are modelled as Lean `String`, `Decimal`/`float` values as
exact decimals, nullable fields as `Option`, and code that can raise as `Except`.
-/

namespace GrantMatch

/-! ## Python string primitives used by the source -/

/-- ASCII lower-casing of one character, as Python `str.lower` acts on the
ASCII inputs handled by this code base. -/
def lowChar (c : Char) : Char :=
  if 'A' ≤ c ∧ c ≤ 'Z' then Char.ofNat (c.toNat + 32) else c

/-- ASCII upper-casing of one character (Python `str.upper`). -/
def upChar (c : Char) : Char :=
  if 'a' ≤ c ∧ c ≤ 'z' then Char.ofNat (c.toNat - 32) else c

/-- Python `s.lower()`. -/
def lowStr (s : String) : String := String.mk (s.data.map lowChar)

/-- Python `s.upper()`. -/
def upStr (s : String) : String := String.mk (s.data.map upChar)

/-- Whether `pat` occurs at the start of `l`. -/
def listHasPre (pat l : List Char) : Bool :=
  match pat, l with
  | [], _ => true
  | _ :: _, [] => false
  | c :: cs, d :: ds => c == d && listHasPre cs ds

/-- Whether `pat` occurs anywhere inside `l`. -/
def listHasSub (pat l : List Char) : Bool :=
  match l with
  | [] => listHasPre pat []
  | _ :: ds => listHasPre pat l || listHasSub pat ds

/-- Python `pat in s` for strings: substring containment. -/
def strContains (s pat : String) : Bool := listHasSub pat.data s.data

/-- Python `s.strip()`: drop leading and trailing whitespace. -/
def pyStrip (s : String) : String :=
  String.mk (((s.data.dropWhile Char.isWhitespace).reverse.dropWhile
    Char.isWhitespace).reverse)

/-- Accumulator pass for whitespace splitting: `acc` holds the current
word reversed. -/
def splitWsAux : List Char → List Char → List String
  | [], acc => if acc = [] then [] else [String.mk acc.reverse]
  | c :: cs, acc =>
      if c.isWhitespace then
        if acc = [] then splitWsAux cs []
        else String.mk acc.reverse :: splitWsAux cs []
      else splitWsAux cs (c :: acc)

/-- Python `s.split()`: split on whitespace runs, no empty words. -/
def pySplitWs (s : String) : List String := splitWsAux s.data []

/-- Python `s.replace(",", "")`. -/
def removeCommas (s : String) : String :=
  String.mk (s.data.filter (fun c => c ≠ ','))

/-! ## Exact decimal numbers

Python's `decimal.Decimal` values appearing here are exact decimal
fractions.  They are modelled by a mantissa/exponent pair denoting
`num / 10 ^ exp`, kept normalized (no trailing factor of ten), with
comparison by cross-multiplication; all operations reduce in the kernel,
unlike `ℚ`'s gcd-normalizing arithmetic. -/

/-- An exact decimal number with value `num / 10 ^ exp`. -/
structure Dec where
  num : Int
  exp : Nat
deriving DecidableEq, Repr

/-- Remove trailing factors of ten (recursion on the exponent). -/
def Dec.normAux : Int → Nat → Dec
  | n, 0 => ⟨n, 0⟩
  | n, e + 1 => if n % 10 = 0 then Dec.normAux (n / 10) e else ⟨n, e + 1⟩

/-- Remove trailing factors of ten so that equal values have equal
representations. -/
def Dec.norm (d : Dec) : Dec := Dec.normAux d.num d.exp

/-- Value order on decimals: `a ≤ b`. -/
def Dec.ble (a b : Dec) : Bool :=
  a.num * Int.ofNat (10 ^ b.exp) ≤ b.num * Int.ofNat (10 ^ a.exp)

/-- Python truthiness of a decimal: zero is falsy. -/
def Dec.truthy (a : Dec) : Bool := a.num ≠ 0

/-- Exact division by 1000, as the thousands conversion performs. -/
def Dec.div1000 (a : Dec) : Dec := Dec.norm ⟨a.num, a.exp + 3⟩

instance (n : Nat) : OfNat Dec n := ⟨⟨n, 0⟩⟩

/-! ## Numeric-token extraction (`re.findall(r'[\d,]+\.?\d*', ...)`)

All call sites in `_parse_funding` first strip commas from the string, so
on the actual inputs each token is `\d+(\.\d*)?`.  `grabTok` takes one
maximal such token from a list known to start with a digit; `findNumsAux`
scans left to right with a fuel argument bounded by the list length. -/

/-- Take one maximal numeric token (digits, optional dot, digits) from the
head of `l`, returning the token and the remaining characters. -/
def grabTok (l : List Char) : List Char × List Char :=
  let ds := l.takeWhile Char.isDigit
  let rest := l.dropWhile Char.isDigit
  match rest with
  | '.' :: r2 =>
      (ds ++ '.' :: r2.takeWhile Char.isDigit, r2.dropWhile Char.isDigit)
  | _ => (ds, rest)

/-- Left-to-right scan for numeric tokens; `fuel` only needs to be at
least the list length, which every caller supplies. -/
def findNumsAux : Nat → List Char → List String
  | 0, _ => []
  | _ + 1, [] => []
  | f + 1, c :: cs =>
      if c.isDigit then
        let t := grabTok (c :: cs)
        String.mk t.1 :: findNumsAux f t.2
      else
        findNumsAux f cs

/-- Model of `re.findall(r'[\d,]+\.?\d*', s)` on a comma-free string. -/
def findNumbers (s : String) : List String :=
  findNumsAux s.data.length s.data

/-- Numeric value of one token: Python `Decimal(tok)` for the token shapes
`findNumbers` can produce. -/
def decOfTok (t : String) : Dec :=
  let intPart := t.data.takeWhile Char.isDigit
  let rest := t.data.dropWhile Char.isDigit
  let fracPart :=
    match rest with
    | '.' :: r2 => r2.takeWhile Char.isDigit
    | _ => []
  let iv : Nat := intPart.foldl (fun a c => a * 10 + (c.toNat - 48)) 0
  let fv : Nat := fracPart.foldl (fun a c => a * 10 + (c.toNat - 48)) 0
  Dec.norm ⟨(iv * 10 ^ fracPart.length + fv : Nat), fracPart.length⟩

/-- The source's thousands normalization: values at least 1000 are divided
by 1000, smaller values are kept as-is. -/
def scaleThousands (v : Dec) : Dec :=
  if Dec.ble 1000 v then v.div1000 else v

/-! ## `SGGrantsService._parse_funding`

Direct embedding of the source, including its control-flow slip: the
`if len(numbers) >= 2:` test is dedented out of the range-indicator
branch, so when the string contains neither `-` nor `to` (and the
`up to` branch did not return), the local `numbers` is unbound and the
function raises `UnboundLocalError`, modelled as `Except.error ()`. -/

def _parse_funding (funding_str : String) :
    Except Unit (Option Dec × Option Dec) :=
  if funding_str = "" then .ok (none, none)
  else
    let fs := pyStrip funding_str
    -- the "up to" branch returns only when it finds a numeric token
    let upTo : Option (Option Dec × Option Dec) :=
      if strContains (lowStr fs) "up to" then
        match findNumbers (removeCommas fs) with
        | n :: _ => some (none, some (scaleThousands (decOfTok n)))
        | [] => none
      else none
    match upTo with
    | some r => .ok r
    | none =>
      if strContains fs "-" || strContains (lowStr fs) "to" then
        match findNumbers (removeCommas fs) with
        | n1 :: n2 :: _ =>
            .ok (some (scaleThousands (decOfTok n1)),
                 some (scaleThousands (decOfTok n2)))
        | [n1] =>
            .ok (some (scaleThousands (decOfTok n1)),
                 some (scaleThousands (decOfTok n1)))
        | [] =>
            -- falls past both arms into the trailing extraction block
            match findNumbers (removeCommas fs) with
            | n :: _ => .ok (none, some (scaleThousands (decOfTok n)))
            | [] => .ok (none, none)
      else
        -- `numbers` was never assigned: UnboundLocalError
        .error ()

/-! ## `SGGrantsService._parse_date`

The source calls `datetime.strptime` with a fixed list of six formats; the
directives are modelled by `DTok` and matched with CPython's `_strptime`
regular-expression semantics (alternation order with backtracking,
case-insensitive month names, whitespace in the format matching a run of
whitespace), followed by calendar validation as `datetime` performs it. -/

/-- A calendar date as produced by `datetime.date`. -/
structure Date where
  year : Nat
  month : Nat
  day : Nat
deriving DecidableEq, Repr

/-- One strptime directive or literal of the formats used by the source. -/
inductive DTok
  | lit (c : Char)
  | ws
  | day
  | mon2
  | monAbb
  | monFull
  | year4
  | hh
  | m2
  | s2
deriving Repr

/-- Fields accumulated while matching a format. -/
structure PF where
  y : Nat := 1900
  m : Nat := 1
  d : Nat := 1
deriving DecidableEq, Repr

/-- Numeric value of two digit characters. -/
def twoDigitVal (c1 c2 : Char) : Nat := (c1.toNat - 48) * 10 + (c2.toNat - 48)

/-- Abbreviated month names of the C locale, as matched by `%b`. -/
def monAbbs : List (String × Nat) :=
  [("jan", 1), ("feb", 2), ("mar", 3), ("apr", 4), ("may", 5), ("jun", 6),
   ("jul", 7), ("aug", 8), ("sep", 9), ("oct", 10), ("nov", 11), ("dec", 12)]

/-- Full month names of the C locale, as matched by `%B`. -/
def monFulls : List (String × Nat) :=
  [("january", 1), ("february", 2), ("march", 3), ("april", 4), ("may", 5),
   ("june", 6), ("july", 7), ("august", 8), ("september", 9), ("october", 10),
   ("november", 11), ("december", 12)]

/-- Match a token list against the input characters, requiring the whole
input to be consumed (strptime rejects unconverted trailing data).  The
numeric directives try their two-digit alternatives before the one-digit
one, backtracking when the rest of the format fails, exactly as the
compiled regular expressions do. -/
def matchToks : List DTok → List Char → PF → Option PF
  | [], [], pf => some pf
  | [], _ :: _, _ => none
  | t :: ts, cs, pf =>
    match t with
    | .lit c =>
      match cs with
      | c1 :: rest => if lowChar c1 = lowChar c then matchToks ts rest pf else none
      | [] => none
    | .ws =>
      match cs with
      | c1 :: rest =>
          if c1.isWhitespace then
            matchToks ts (rest.dropWhile Char.isWhitespace) pf
          else none
      | [] => none
    | .day =>
      (match cs with
       | c1 :: c2 :: rest =>
           if (c1 = '3' ∧ (c2 = '0' ∨ c2 = '1')) ∨
              ((c1 = '1' ∨ c1 = '2') ∧ c2.isDigit) ∨
              (c1 = '0' ∧ c2.isDigit ∧ c2 ≠ '0') then
             matchToks ts rest { pf with d := twoDigitVal c1 c2 }
           else none
       | _ => none) <|>
      (match cs with
       | c1 :: rest =>
           if c1.isDigit ∧ c1 ≠ '0' then
             matchToks ts rest { pf with d := c1.toNat - 48 }
           else none
       | [] => none)
    | .mon2 =>
      (match cs with
       | c1 :: c2 :: rest =>
           if (c1 = '1' ∧ (c2 = '0' ∨ c2 = '1' ∨ c2 = '2')) ∨
              (c1 = '0' ∧ c2.isDigit ∧ c2 ≠ '0') then
             matchToks ts rest { pf with m := twoDigitVal c1 c2 }
           else none
       | _ => none) <|>
      (match cs with
       | c1 :: rest =>
           if c1.isDigit ∧ c1 ≠ '0' then
             matchToks ts rest { pf with m := c1.toNat - 48 }
           else none
       | [] => none)
    | .monAbb =>
      match monAbbs.find? (fun nm => listHasPre nm.1.data (cs.map lowChar)) with
      | some nm => matchToks ts (cs.drop nm.1.length) { pf with m := nm.2 }
      | none => none
    | .monFull =>
      match monFulls.find? (fun nm => listHasPre nm.1.data (cs.map lowChar)) with
      | some nm => matchToks ts (cs.drop nm.1.length) { pf with m := nm.2 }
      | none => none
    | .year4 =>
      match cs with
      | c1 :: c2 :: c3 :: c4 :: rest =>
          if c1.isDigit ∧ c2.isDigit ∧ c3.isDigit ∧ c4.isDigit then
            matchToks ts rest
              { pf with y := twoDigitVal c1 c2 * 100 + twoDigitVal c3 c4 }
          else none
      | _ => none
    | .hh =>
      (match cs with
       | c1 :: c2 :: rest =>
           if (c1 = '2' ∧ (c2 = '0' ∨ c2 = '1' ∨ c2 = '2' ∨ c2 = '3')) ∨
              ((c1 = '0' ∨ c1 = '1') ∧ c2.isDigit) then
             matchToks ts rest pf
           else none
       | _ => none) <|>
      (match cs with
       | c1 :: rest => if c1.isDigit then matchToks ts rest pf else none
       | [] => none)
    | .m2 | .s2 =>
      (match cs with
       | c1 :: c2 :: rest =>
           if ('0' ≤ c1 ∧ c1 ≤ '5') ∧ c2.isDigit then matchToks ts rest pf
           else none
       | _ => none) <|>
      (match cs with
       | c1 :: rest => if c1.isDigit then matchToks ts rest pf else none
       | [] => none)

/-- Leap-year rule of the Gregorian calendar, as `datetime` uses. -/
def isLeap (y : Nat) : Bool := y % 4 = 0 && (y % 100 ≠ 0 || y % 400 = 0)

/-- Number of days of month `m` of year `y`. -/
def daysInMonth (y m : Nat) : Nat :=
  if m = 2 then (if isLeap y then 29 else 28)
  else if m = 4 ∨ m = 6 ∨ m = 9 ∨ m = 11 then 30
  else 31

/-- Calendar validation performed by the `datetime` constructor;
returning `none` models the `ValueError` the format loop catches. -/
def mkDate (pf : PF) : Option Date :=
  if 1 ≤ pf.y ∧ pf.y ≤ 9999 ∧ 1 ≤ pf.m ∧ pf.m ≤ 12 ∧
     1 ≤ pf.d ∧ pf.d ≤ daysInMonth pf.y pf.m then
    some ⟨pf.y, pf.m, pf.d⟩
  else none

/-- Format `'%d %b %Y'`. -/
def fmtDBY : List DTok := [.day, .ws, .monAbb, .ws, .year4]

/-- Format `'%d %B %Y'`. -/
def fmtDBFullY : List DTok := [.day, .ws, .monFull, .ws, .year4]

/-- Format `'%Y-%m-%d'`. -/
def fmtISO : List DTok := [.year4, .lit '-', .mon2, .lit '-', .day]

/-- Format `'%d/%m/%Y'`. -/
def fmtSlash : List DTok := [.day, .lit '/', .mon2, .lit '/', .year4]

/-- Format `'%d-%m-%Y'`. -/
def fmtDash : List DTok := [.day, .lit '-', .mon2, .lit '-', .year4]

/-- Format `'%Y-%m-%d %H:%M:%S'`. -/
def fmtISOTime : List DTok :=
  [.year4, .lit '-', .mon2, .lit '-', .day, .ws, .hh, .lit ':', .m2,
   .lit ':', .s2]

/-- The source's `date_formats` list, in order. -/
def dateFormats : List (List DTok) :=
  [fmtDBY, fmtDBFullY, fmtISO, fmtSlash, fmtDash, fmtISOTime]

/-- The status keywords rejected before any format is tried. -/
def dateKeywords : List String := ["open", "closed", "applications", "tba", "n/a"]

/-- Python `re.match(r'\d{4}-\d{2}-\d{2}', s)`: the string starts with
four digits, a dash, two digits, a dash and two digits. -/
def isoPre : List Char → Bool
  | a :: b :: c :: d :: '-' :: e :: f :: '-' :: g :: h :: _ =>
      a.isDigit && b.isDigit && c.isDigit && d.isDigit && e.isDigit &&
      f.isDigit && g.isDigit && h.isDigit
  | _ => false

/-- Embedding of `SGGrantsService._parse_date`: reject empty strings,
strip, reject status keywords, try the six formats in order, then fall
back to parsing the first ten characters when the string starts with an
ISO-looking prefix. -/
def _parse_date (date_str : String) : Option Date :=
  if date_str = "" then none
  else
    let ds := pyStrip date_str
    if dateKeywords.any (fun k => strContains (lowStr ds) k) then none
    else
      match dateFormats.findSome? (fun f => (matchToks f ds.data {}).bind mkDate) with
      | some d => some d
      | none =>
          if isoPre ds.data then
            (matchToks fmtISO (ds.data.take 10) {}).bind mkDate
          else none

/-! ## Match scorer (`views.calculate_matches_for_project`)

The body of the per-grant loop is embedded as a pure function from the
fields it reads.  Python truthiness governs the guards, and the chained
comparison `grant.funding_min <= project.budget_required_max and
grant.funding_max >= project.budget_required_min` raises `TypeError`
when a compared field is `None`; this is modelled with `Except`. -/

/-- The fields of a `Project` read by the matching logic. -/
structure ProjectM where
  focus_area : String
  budget_required_min : Option Dec
  budget_required_max : Option Dec
  kpis : String
  duration_years : String
deriving DecidableEq, Repr

/-- The fields of a `Grant` read by the matching logic. -/
structure GrantM where
  description : String
  funding_min : Option Dec
  funding_max : Option Dec
  duration_years : String
  status : String
  match_score : Nat
deriving DecidableEq, Repr

/-- Python truthiness of a nullable numeric field. -/
def truthyOpt (x : Option Dec) : Bool :=
  match x with
  | none => false
  | some v => v.truthy

/-- Python truthiness of a text field. -/
def truthyStr (s : String) : Bool := s ≠ ""

/-- Reason string built for the focus-area rule. -/
def focusReason (focus_area : String) : String :=
  "Perfect alignment with " ++ focus_area ++ " programs"

/-- Budget-overlap rule of the scorer, from the guard through the chained
comparison, with the `TypeError` paths made explicit. -/
def budgetRule (p : ProjectM) (g : GrantM) : Except Unit (Nat × List String) :=
  if truthyOpt p.budget_required_min && truthyOpt g.funding_min then
    match g.funding_min, p.budget_required_max with
    | some gmin, some pmax =>
        if Dec.ble gmin pmax then
          match g.funding_max, p.budget_required_min with
          | some gmax, some pmin =>
              if Dec.ble pmin gmax then
                .ok (25, ["Budget range matches your requirements"])
              else .ok (0, [])
          | some _, none => .ok (0, [])
          | none, _ => .error ()
        else .ok (0, [])
    | some _, none => .error ()
    | none, _ => .ok (0, [])
  else .ok (0, [])

/-- Score and reasons computed by one iteration of the loop in
`calculate_matches_for_project`, before the threshold test. -/
def scoreGrantForProject (p : ProjectM) (g : GrantM) :
    Except Unit (Nat × List String) :=
  let focus : Nat × List String :=
    if strContains (lowStr g.description) (lowStr p.focus_area) then
      (30, [focusReason p.focus_area])
    else (0, [])
  match budgetRule p g with
  | .error e => .error e
  | .ok budget =>
    let kpi : Nat × List String :=
      if truthyStr p.kpis && truthyStr g.description then
        (20, ["KPIs align with your service outcomes"])
      else (0, [])
    let dur : Nat × List String :=
      if truthyStr p.duration_years && truthyStr g.duration_years then
        (15, ["Timeline aligns with project scope"])
      else (0, [])
    .ok (focus.1 + budget.1 + kpi.1 + dur.1 + 10,
         focus.2 ++ budget.2 ++ kpi.2 ++ dur.2)

/-! ## GrantMatch storage (`GrantMatch` rows keyed by (project, grant)) -/

/-- A stored `GrantMatch` row. -/
structure MatchRec where
  projectId : Nat
  grantId : Nat
  match_score : Nat
  match_reasons : List String
  is_saved : Bool
deriving DecidableEq, Repr

/-- Key equality used by the ORM lookups on (project, grant). -/
def keyEq (pid gid : Nat) (r : MatchRec) : Bool :=
  r.projectId = pid && r.grantId = gid

/-- First stored row for the pair, as the ORM `get` returns. -/
def findMatch (S : List MatchRec) (pid gid : Nat) : Option MatchRec :=
  S.find? (keyEq pid gid)

/-- `GrantMatch.objects.update_or_create(project=..., grant=...,
defaults=score/reasons)`: overwrite the first matching row's score and
reasons, or append a fresh row (with the model's default
`is_saved = False`). -/
def upsertMatch (pid gid score : Nat) (reasons : List String) :
    List MatchRec → List MatchRec
  | [] =>
      [{ projectId := pid, grantId := gid, match_score := score,
         match_reasons := reasons, is_saved := false }]
  | r :: rs =>
      if keyEq pid gid r then
        { r with match_score := score, match_reasons := reasons } :: rs
      else r :: upsertMatch pid gid score reasons rs

/-- One iteration of `calculate_matches_for_project` for a single open
grant: store the match via upsert only when the score reaches 70, with
the score capped at 100 and the first three reasons kept. -/
def recomputePair (S : List MatchRec) (pid : Nat) (p : ProjectM)
    (gid : Nat) (g : GrantM) : Except Unit (List MatchRec) :=
  match scoreGrantForProject p g with
  | .error e => .error e
  | .ok (score, reasons) =>
      if 70 ≤ score then
        .ok (upsertMatch pid gid (min score 100) (reasons.take 3) S)
      else .ok S

/-- Embedding of `calculate_matches_for_project`: iterate over the grants
with status `open`; any scorer exception aborts the loop, leaving the
updates already made (no transaction wraps the view). -/
def calculate_matches_for_project (S : List MatchRec) (pid : Nat)
    (p : ProjectM) (grants : List (Nat × GrantM)) :
    Except Unit (List MatchRec) :=
  (grants.filter (fun gg => gg.2.status = "open")).foldlM
    (fun acc gg => recomputePair acc pid p gg.1 gg.2) S

/-- Embedding of the state change of `toggle_save_grant` once a project
exists: `get_or_create` the pair row (defaults
`match_score = grant.match_score or 0`), then flip `is_saved`. -/
def toggle_save_grant (pid gid : Nat) (g : GrantM) :
    List MatchRec → List MatchRec
  | [] =>
      [{ projectId := pid, grantId := gid, match_score := g.match_score,
         match_reasons := [], is_saved := true }]
  | r :: rs =>
      if keyEq pid gid r then { r with is_saved := !r.is_saved } :: rs
      else r :: toggle_save_grant pid gid g rs

/-! ## Application lifecycle (`views.start_application`,
`views.application_create`, `views.update_application_status`)

Timestamps are modelled as abstract `Nat` instants passed in. -/

/-- The fields of an `Application` touched by the lifecycle views. -/
structure AppM where
  status : String
  submitted_at : Option Nat
  notes : String
deriving DecidableEq, Repr

/-- The valid statuses accepted by `update_application_status`. -/
def validStatuses : List String :=
  ["in_progress", "submitted", "approved", "rejected"]

/-- Embedding of `start_application` once a project exists: get-or-create
with default status `in_progress`; an existing application not in
progress is forced back to `in_progress`. -/
def start_application (existing : Option AppM) : AppM :=
  match existing with
  | none => { status := "in_progress", submitted_at := none, notes := "" }
  | some a =>
      if a.status ≠ "in_progress" then { a with status := "in_progress" }
      else a

/-- Embedding of the creation in `application_create`. -/
def application_create (notes : String) : AppM :=
  { status := "in_progress", submitted_at := none, notes := notes }

/-- Embedding of `update_application_status`: reject invalid statuses
with a 400 response, otherwise set the status unconditionally and stamp
`submitted_at` on a first transition to `submitted`. -/
def update_application_status (a : AppM) (new_status : String) (now : Nat) :
    Except String AppM :=
  if validStatuses.contains new_status then
    .ok { a with
          status := new_status,
          submitted_at :=
            if new_status = "submitted" ∧ a.submitted_at = none then some now
            else a.submitted_at }
  else .error "Invalid status"

/-! ## API fetch (`SGGrantsService._fetch_via_api`)

One JSON metadata object is modelled by `MetaRec`; absent keys are
`none`.  `closing_dates` is a JSON object rendered by Python `str` when
the status heuristic searches it for the word `closed`. -/

/-- One entry of the API's `grant_metadata` array, with the keys the
source reads; `none` stands for an absent key. -/
structure MetaRec where
  active : Option String
  enabled : Option String
  status : Option String
  id : Option String
  name : Option String
  desc : Option String
  agency_name : Option String
  agency_code : Option String
  value : Option String
  closing_dates : List (String × String)
  grant_amount : Option String
deriving DecidableEq, Repr

/-- Python `str` of a dict of strings, as used by
`'closed' in str(closing_dates).lower()` (quote-free keys and values). -/
def reprDict (l : List (String × String)) : String :=
  "\x7b" ++
    String.intercalate ", "
      (l.map (fun kv => "'" ++ kv.1 ++ "': '" ++ kv.2 ++ "'")) ++
  "\x7d"

/-- The loop choosing `closing_date_str` from the `closing_dates` dict:
the first truthy value that is not `Open for Applications` and does not
contain `closed` wins; a truthy value containing `Open for Applications`
selects no date and stops the search. -/
def chooseClosingDate : List (String × String) → Option String
  | [] => none
  | (_, v) :: rest =>
      if v ≠ "" ∧ v ≠ "Open for Applications" ∧
         ¬ strContains (lowStr v) "closed" then some v
      else if v ≠ "" ∧ strContains v "Open for Applications" then none
      else chooseClosingDate rest

/-- A raw grant record as produced by the fetch paths and consumed by
`sync_grants_to_db` (the keys `sync` reads, with the `get` defaults
already applied). -/
structure RawGrant where
  external_id : String
  title : String
  description : String
  agency_name : String
  agency_code : String
  closing_date : Option Date
  funding_min : Option Dec
  funding_max : Option Dec
  application_url : String
  source_url : String
  status : String
  icon_name : String
deriving DecidableEq, Repr

/-- The portal base URL. -/
def BASE_URL : String := "https://oursggrants.gov.sg"

/-- Funding parsing of one metadata record: the `grant_amount` value is
parsed only when present and truthy. -/
def fundingOfMeta (m : MetaRec) : Except Unit (Option Dec × Option Dec) :=
  match m.grant_amount with
  | some amt => if amt ≠ "" then _parse_funding amt else .ok (none, none)
  | none => .ok (none, none)

/-- Processing of one metadata record inside `_fetch_via_api`:
`ok none` is the `continue` on records not flagged active and enabled,
`ok (some r)` appends a record, and `error` propagates the funding
parser's exception, which aborts the whole API fetch. -/
def processApiRecord (m : MetaRec) : Except Unit (Option RawGrant) :=
  if m.active ≠ some "true" ∨ m.enabled ≠ some "true" then .ok none
  else
    let closing_date_str := chooseClosingDate m.closing_dates
    match fundingOfMeta m with
    | .error e => .error e
    | .ok (fmin, fmax) =>
      let status := m.status.getD "open"
      let grant_status :=
        if status = "green" then "open"
        else if status = "red" ∨
                strContains (lowStr (reprDict m.closing_dates)) "closed" then
          "closed"
        else "open"
      let grant_value := m.value.getD ""
      let application_url :=
        if grant_value ≠ "" then
          BASE_URL ++ "/grants/" ++ grant_value ++ "/instruction"
        else ""
      .ok (some
        { external_id := m.id.getD ""
          title := m.name.getD ""
          description := m.desc.getD ""
          agency_name := m.agency_name.getD "Unknown"
          agency_code := m.agency_code.getD ""
          closing_date :=
            match closing_date_str with
            | some s => _parse_date s
            | none => none
          funding_min := fmin
          funding_max := fmax
          application_url := application_url
          source_url := application_url
          status := grant_status
          icon_name := lowStr (m.agency_code.getD "") })

/-- Embedding of `_fetch_via_api` over a decoded metadata array. -/
def _fetch_via_api (ms : List MetaRec) : Except Unit (List RawGrant) :=
  ms.foldlM
    (fun acc m =>
      match processApiRecord m with
      | .error e => .error e
      | .ok none => .ok acc
      | .ok (some r) => .ok (acc ++ [r]))
    []

/-! ## Sync orchestrator (`SGGrantsService.sync_grants_to_db`) -/

/-- A stored `Agency` row. -/
structure AgencyRec where
  acronym : String
  name : String
deriving DecidableEq, Repr

/-- A stored `Grant` row; `agencyIdx` is the foreign key, identified with
the agency's position in the agencies table.  `duration_years` and
`match_score` are not among the sync defaults and are preserved by
updates. -/
structure GrantRec where
  external_id : String
  title : String
  agencyIdx : Nat
  description : String
  funding_min : Option Dec
  funding_max : Option Dec
  closing_date : Option Date
  application_url : String
  source_url : String
  status : String
  icon_name : String
  duration_years : String
  match_score : Nat
deriving DecidableEq, Repr

/-- The persisted state the sync touches. -/
structure DB where
  agencies : List AgencyRec
  grants : List GrantRec
deriving DecidableEq, Repr

/-- Embedding of `SGGrantsService._extract_acronym`. -/
def _extract_acronym (agency_name : String) : String :=
  let words := pySplitWs agency_name
  if 2 ≤ words.length then
    String.join ((words.take 3).map (fun w =>
      match w.data with
      | c :: _ => String.mk [upChar c]
      | [] => ""))
  else upStr (String.mk (agency_name.data.take 3))

/-- Index of the first list element satisfying `p`, as the ORM `get`
resolves a lookup. -/
def firstIdx {α : Type} (p : α → Bool) : List α → Option Nat
  | [] => none
  | x :: xs => if p x then some 0 else (firstIdx p xs).map (· + 1)

/-- Agency lookup by acronym. -/
def acrPred (c : String) (a : AgencyRec) : Bool := a.acronym = c

/-- Agency lookup by name. -/
def namePred (n : String) (a : AgencyRec) : Bool := a.name = n

/-- Grant lookup by external id. -/
def extPred (e : String) (g : GrantRec) : Bool := g.external_id = e

/-- Set the name of the agency at position `i`. -/
def setAgencyName : List AgencyRec → Nat → String → List AgencyRec
  | [], _, _ => []
  | a :: rest, 0, nm => { a with name := nm } :: rest
  | a :: rest, i + 1, nm => a :: setAgencyName rest i nm

/-- Agency resolution step of `sync_grants_to_db`: prefer the uppercased
`agency_code` as the acronym key, updating a stale name in place;
otherwise resolve by name, deriving an acronym on creation.  Returns the
agencies table and the resolved agency's index. -/
def resolveAgency (agencies : List AgencyRec) (r : RawGrant) :
    List AgencyRec × Nat :=
  let code := upStr r.agency_code
  if code ≠ "" then
    match firstIdx (acrPred code) agencies with
    | some i =>
        (if (agencies.get? i).any (fun a => a.name ≠ r.agency_name) then
           setAgencyName agencies i r.agency_name
         else agencies, i)
    | none =>
        (agencies ++ [{ acronym := code, name := r.agency_name }],
         agencies.length)
  else
    match firstIdx (namePred r.agency_name) agencies with
    | some i => (agencies, i)
    | none =>
        (agencies ++ [{ acronym := _extract_acronym r.agency_name,
                        name := r.agency_name }],
         agencies.length)

/-- The mutable fields written by the grant upsert's `defaults`,
applied over an existing row (create passes the model defaults for the
remaining fields). -/
def applyGrantDefaults (g : GrantRec) (r : RawGrant) (aIdx : Nat) : GrantRec :=
  { g with
    title := r.title
    agencyIdx := aIdx
    description := r.description
    funding_min := r.funding_min
    funding_max := r.funding_max
    closing_date := r.closing_date
    application_url := r.application_url
    source_url := r.source_url
    status := r.status
    icon_name := r.icon_name
    external_id := r.external_id }

/-- A freshly created grant row for record `r`. -/
def newGrantRec (r : RawGrant) (aIdx : Nat) : GrantRec :=
  applyGrantDefaults
    { external_id := "", title := "", agencyIdx := 0, description := ""
      funding_min := none, funding_max := none, closing_date := none
      application_url := "", source_url := "", status := "open"
      icon_name := "", duration_years := "", match_score := 0 } r aIdx

/-- The lookup used by the grant upsert: `external_id` when non-empty,
else the (title, agency) pair. -/
def grantLookup (r : RawGrant) (aIdx : Nat) (g : GrantRec) : Bool :=
  if r.external_id ≠ "" then g.external_id = r.external_id
  else g.title = r.title && g.agencyIdx = aIdx

/-- Update the grant at position `i` with the sync defaults. -/
def setGrantAt : List GrantRec → Nat → RawGrant → Nat → List GrantRec
  | [], _, _, _ => []
  | g :: rest, 0, r, aIdx => applyGrantDefaults g r aIdx :: rest
  | g :: rest, i + 1, r, aIdx => g :: setGrantAt rest i r aIdx

/-- The ORM `get` underlying `get_or_create` / `update_or_create`: no
matching row asks for a creation, a unique matching row is returned (its
index here), and several matching rows raise `MultipleObjectsReturned`. -/
def ormGetIdx {α : Type} (p : α → Bool) (l : List α) :
    Except Unit (Option Nat) :=
  match l.countP p with
  | 0 => .ok none
  | 1 => .ok (firstIdx p l)
  | _ + 2 => .error ()

/-- The grant `update_or_create`: `get` by the lookup, then update the
found row or append a fresh one.  The boolean reports a creation; with
several matching rows (neither `external_id` nor (title, agency) carries
a uniqueness constraint on `Grant`) the underlying `get` raises
`MultipleObjectsReturned`, which propagates out of the sync. -/
def upsertGrant (grants : List GrantRec) (r : RawGrant) (aIdx : Nat) :
    Except Unit (List GrantRec × Bool) :=
  match ormGetIdx (fun g => grantLookup r aIdx g) grants with
  | .error e => .error e
  | .ok (some i) => .ok (setGrantAt grants i r aIdx, false)
  | .ok none => .ok (grants ++ [newGrantRec r aIdx], true)

/-- The first-match core of the grant upsert: update the first row the
lookup finds, else append a fresh row.  On states where at most one row
matches the lookup it coincides with `upsertGrant`
(`upsertGrant_eq_FM`). -/
def upsertGrantFM (grants : List GrantRec) (r : RawGrant) (aIdx : Nat) :
    List GrantRec × Bool :=
  match firstIdx (fun g => grantLookup r aIdx g) grants with
  | some i => (setGrantAt grants i r aIdx, false)
  | none => (grants ++ [newGrantRec r aIdx], true)

/-- One iteration of the sync loop: resolve the agency, then
`update_or_create` the grant.  The boolean reports whether a grant row
was created; a `MultipleObjectsReturned` from the grant lookup aborts
the iteration. -/
def syncStep (db : DB) (r : RawGrant) : Except Unit (DB × Bool) :=
  let ares := resolveAgency db.agencies r
  match upsertGrant db.grants r ares.2 with
  | .error e => .error e
  | .ok gres => .ok ({ agencies := ares.1, grants := gres.1 }, gres.2)

/-- One iteration of the sync loop over the first-match upsert core;
a normally-returning `syncStep` coincides with it on states whose grant
lookups match at most one row (`syncStep_eq_FM`). -/
def syncStepFM (db : DB) (r : RawGrant) : DB × Bool :=
  let ares := resolveAgency db.agencies r
  let gres := upsertGrantFM db.grants r ares.2
  ({ agencies := ares.1, grants := gres.1 }, gres.2)

/-- Result counters of a sync run. -/
structure SyncResult where
  db : DB
  created : Nat
  updated : Nat
  total : Nat
deriving DecidableEq, Repr

/-- The counting fold body of `sync_grants_to_db`: run a sync step and
add the creation to the `created` or `updated` counter. -/
def syncFoldStep (acc : DB × Nat × Nat) (r : RawGrant) :
    Except Unit (DB × Nat × Nat) :=
  match syncStep acc.1 r with
  | .error e => .error e
  | .ok step =>
      .ok (step.1, acc.2.1 + (if step.2 then 1 else 0),
           acc.2.2 + (if step.2 then 0 else 1))

/-- The counting fold body over the first-match sync step core. -/
def syncFoldStepFM (acc : DB × Nat × Nat) (r : RawGrant) :
    DB × Nat × Nat :=
  let step := syncStepFM acc.1 r
  (step.1, acc.2.1 + (if step.2 then 1 else 0),
   acc.2.2 + (if step.2 then 0 else 1))

/-- Embedding of `sync_grants_to_db` over an already-fetched record
list.  An uncaught `MultipleObjectsReturned` aborts the run: the
exception propagates to the caller, and no result record is built (the
rows already written before the raise are not tracked by the
embedding). -/
def sync_grants_to_db (db : DB) (records : List RawGrant) :
    Except Unit SyncResult :=
  match records.foldlM syncFoldStep (db, 0, 0) with
  | .error e => .error e
  | .ok fin =>
      .ok { db := fin.1, created := fin.2.1, updated := fin.2.2,
            total := records.length }

/-! ## Auxiliary definitions for stating the claims -/

/-- Decidable equality for `Except`, so results of the fallible embeddings
can be checked by evaluation. -/
instance {ε α : Type} [DecidableEq ε] [DecidableEq α] :
    DecidableEq (Except ε α) := fun a b =>
  match a, b with
  | .error e, .error f =>
      if h : e = f then .isTrue (by rw [h])
      else .isFalse (fun hh => h (Except.error.inj hh))
  | .error _, .ok _ => .isFalse (fun hh => Except.noConfusion hh)
  | .ok _, .error _ => .isFalse (fun hh => Except.noConfusion hh)
  | .ok x, .ok y =>
      if h : x = y then .isTrue (by rw [h])
      else .isFalse (fun hh => h (Except.ok.inj hh))

/-- The date parser exactly as the specification words it: keyword
rejection, then the fixed ordered format list, first success wins, and
null when no format succeeds — without the source's trailing
ISO-prefix fallback. -/
def specParseDateClaim (s : String) : Option Date :=
  if s = "" then none
  else
    let ds := pyStrip s
    if dateKeywords.any (fun k => strContains (lowStr ds) k) then none
    else dateFormats.findSome? (fun f => (matchToks f ds.data {}).bind mkDate)

/-- The date parser as the amended claim words it: as
`specParseDateClaim`, except that when every format fails and the string
starts with a `\d\x7b4\x7d-\d\x7b2\x7d-\d\x7b2\x7d` prefix, its first ten
characters are parsed as an ISO date. -/
def specParseDateAmended (s : String) : Option Date :=
  if s = "" then none
  else
    let ds := pyStrip s
    if dateKeywords.any (fun k => strContains (lowStr ds) k) then none
    else
      match dateFormats.findSome? (fun f => (matchToks f ds.data {}).bind mkDate) with
      | some d => some d
      | none =>
          if isoPre ds.data then
            (matchToks fmtISO (ds.data.take 10) {}).bind mkDate
          else none

/-- The acronym derivation exactly as the specification words it: the
uppercased first letter of each of the first (at most 3) words. -/
def specAcronymClaim (name : String) : String :=
  String.join (((pySplitWs name).take 3).map (fun w =>
    match w.data with
    | c :: _ => String.mk [upChar c]
    | [] => ""))

/-- The traffic-light status mapping as the amended claim words it:
`green` maps to open; otherwise `red`, or the word `closed` occurring in
the rendering of the closing-dates mapping, maps to closed; anything
else maps to open. -/
def specStatusC9 (code closingText : String) : String :=
  if code = "green" then "open"
  else if code = "red" ∨ strContains (lowStr closingText) "closed" then
    "closed"
  else "open"

/-- Focus-area rule condition of the scorer. -/
def focusHit (p : ProjectM) (g : GrantM) : Bool :=
  strContains (lowStr g.description) (lowStr p.focus_area)

/-- Budget-range overlap exactly as the claim words it (all four bounds
compared, no truthiness guard). -/
def overlapClaim (p : ProjectM) (g : GrantM) : Bool :=
  match g.funding_min, p.budget_required_max, g.funding_max,
      p.budget_required_min with
  | some gmin, some pmax, some gmax, some pmin =>
      Dec.ble gmin pmax && Dec.ble pmin gmax
  | _, _, _, _ => false

/-- Budget rule condition actually enforced by the code: the truthiness
guard on both minimum fields, then the overlap comparison. -/
def budgetHit (p : ProjectM) (g : GrantM) : Bool :=
  truthyOpt p.budget_required_min && truthyOpt g.funding_min &&
    overlapClaim p g

/-- KPI rule condition of the scorer. -/
def kpiHit (p : ProjectM) (g : GrantM) : Bool :=
  truthyStr p.kpis && truthyStr g.description

/-- Duration rule condition of the scorer. -/
def durHit (p : ProjectM) (g : GrantM) : Bool :=
  truthyStr p.duration_years && truthyStr g.duration_years

/-- The score as claim C1 words it: overlap bonus without the truthiness
guard, capped at 100. -/
def specScoreC1 (p : ProjectM) (g : GrantM) : Nat :=
  min ((if focusHit p g then 30 else 0) + (if overlapClaim p g then 25 else 0) +
       (if kpiHit p g then 20 else 0) + (if durHit p g then 15 else 0) + 10)
    100

/-- Key of a stored match row. -/
def keyOf (r : MatchRec) : Nat × Nat := (r.projectId, r.grantId)

/-- At most one row per (project, grant): the stored keys are distinct. -/
def keysNodup (S : List MatchRec) : Prop := (S.map keyOf).Nodup

/-- The acronym key a record's agency resolves under. -/
def agencyKey (r : RawGrant) : String := upStr r.agency_code

/-- The database state a normally-returning sync run leaves, without the
counters: the fold of the first-match step core. -/
def runDB (db : DB) (rs : List RawGrant) : DB :=
  rs.foldl (fun d r => (syncStepFM d r).1) db

/-- At most one stored grant per non-empty external id: the state the
non-unique `external_id` lookup needs for its `get` not to raise. -/
def extNodup (grants : List GrantRec) : Prop :=
  grants.Pairwise (fun g g' =>
    g.external_id = g'.external_id → g.external_id = "")

/-- Pairwise-distinct stored acronyms: the state the `unique=True`
constraint on `Agency.acronym` enforces, on which first-match acronym
resolution agrees with the ORM `get`. -/
def acrNodup (agencies : List AgencyRec) : Prop :=
  (agencies.map (fun a => a.acronym)).Nodup

/-- A record is settled in a state: its agency is stored under its
acronym key with its name, and its grant is stored under its external id
with exactly the synced field values (so replaying the record changes
nothing). -/
def Done (db : DB) (r : RawGrant) : Prop :=
  ∃ i a j g,
    firstIdx (acrPred (agencyKey r)) db.agencies = some i ∧
    db.agencies.get? i = some a ∧ a.name = r.agency_name ∧
    firstIdx (extPred r.external_id) db.grants = some j ∧
    db.grants.get? j = some g ∧ g = applyGrantDefaults g r i

/-- Two records do not disturb each other's settled state: an equal
agency key forces an equal agency name, and an equal external id forces
equal records. -/
def compat (r r' : RawGrant) : Prop :=
  (agencyKey r' = agencyKey r → r'.agency_name = r.agency_name) ∧
  (r'.external_id = r.external_id → r' = r)

/-! ## Concrete instances used by counterexamples and witnesses -/

/-- A project whose budget minimum is the falsy `0`. -/
def projZeroBudget : ProjectM :=
  { focus_area := "zzz", budget_required_min := some 0,
    budget_required_max := some 100, kpis := "", duration_years := "" }

/-- An open grant whose funding range overlaps `[0, 100]`. -/
def grantOverlap : GrantM :=
  { description := "d", funding_min := some 10, funding_max := some 50,
    duration_years := "", status := "open", match_score := 0 }

/-- A project firing every scorer rule against `grantFull`. -/
def projFull : ProjectM :=
  { focus_area := "care", budget_required_min := some 50,
    budget_required_max := some 100, kpis := "k", duration_years := "2" }

/-- An open grant firing every scorer rule against `projFull`. -/
def grantFull : GrantM :=
  { description := "dementia care", funding_min := some 60,
    funding_max := some 90, duration_years := "1-2", status := "open",
    match_score := 0 }

/-- A project with empty focus area and a null budget maximum next to a
truthy budget minimum. -/
def projNoMax : ProjectM :=
  { focus_area := "", budget_required_min := some 50,
    budget_required_max := none, kpis := "", duration_years := "" }

/-- A project with empty focus area and a complete budget range. -/
def projEmptyFocus : ProjectM :=
  { focus_area := "", budget_required_min := some 50,
    budget_required_max := some 100, kpis := "", duration_years := "" }

/-- An API record flagged active and enabled whose traffic-light code is
neither green nor red, with `Closed` inside its closing-dates values. -/
def metaBlueClosed : MetaRec :=
  { active := some "true", enabled := some "true", status := some "blue",
    id := some "x1", name := some "G", desc := some "D",
    agency_name := some "A", agency_code := some "AC", value := some "v",
    closing_dates := [("x", "Closed")], grant_amount := none }

/-- The record `processApiRecord` yields for `metaBlueClosed`. -/
def rawBlueClosed : RawGrant :=
  { external_id := "x1", title := "G", description := "D",
    agency_name := "A", agency_code := "AC", closing_date := none,
    funding_min := none, funding_max := none,
    application_url := "https://oursggrants.gov.sg/grants/v/instruction",
    source_url := "https://oursggrants.gov.sg/grants/v/instruction",
    status := "closed", icon_name := "ac" }

/-- An API record with a green traffic-light code. -/
def metaGreen : MetaRec :=
  { metaBlueClosed with status := some "green", closing_dates := [] }

/-- A raw sync record with an external id. -/
def rawWithId : RawGrant :=
  { external_id := "K", title := "T", description := "d",
    agency_name := "N", agency_code := "C", closing_date := none,
    funding_min := none, funding_max := none, application_url := "",
    source_url := "", status := "open", icon_name := "" }

/-- A raw sync record without an external id sharing `rawWithId`'s title
and agency. -/
def rawNoId : RawGrant := { rawWithId with external_id := "" }

/-- A second raw sync record with a distinct external id and agency. -/
def rawOther : RawGrant :=
  { external_id := "e2", title := "T2", description := "d2",
    agency_name := "Ministry", agency_code := "MSF", closing_date := none,
    funding_min := none, funding_max := none, application_url := "",
    source_url := "", status := "open", icon_name := "" }

/-! ## Theorems about the claims -/

/-- C4: for every non-empty funding string containing neither `up to`
(case-insensitively) nor a range indicator (`-` or `to`), the parser
raises `UnboundLocalError` instead of returning: the dedented
`if len(numbers) >= 2:` test reads `numbers`, which is assigned only
inside the `up to` and range branches.  The specified fallback (first
numeric token as `(None, val)`, or `(None, None)` with no token) is dead
code on these inputs. -/
theorem c4_unbound_numbers_bug (s : String) (h0 : s ≠ "")
    (h1 : strContains (lowStr (pyStrip s)) "up to" = false)
    (h2 : strContains (pyStrip s) "-" = false)
    (h3 : strContains (lowStr (pyStrip s)) "to" = false) :
    _parse_funding s = .error () := by
  simp [_parse_funding, h0, h1, h2, h3]

/-- Witness for `c4_unbound_numbers_bug` at the concrete input `$500`,
which the specification says should parse to `(None, 500)`. -/
theorem c4_unbound_numbers_bug_witness :
    _parse_funding "$500" = .error () :=
  c4_unbound_numbers_bug "$500" (by decide) (by decide) (by decide) (by decide)

/-- C5 counterexample: the range string `$500 - $2,000` parses to
`(min, max) = (500, 2)` because only the second token reaches the
`>= 1000` scaling threshold, so the stored pair violates
`funding_min <= funding_max`. -/
theorem c5_counterexample :
    _parse_funding "$500 - $2,000" = .ok (some 500, some 2) ∧
    Dec.ble 500 2 = false := by
  constructor
  · decide
  · decide

/-- C5 amended: a parse returning two present bounds comes from the range
branch, so either a single numeric token produced `min = max`, or the
bounds are the first two numeric tokens each scaled independently; the
invariant `min ≤ max` therefore holds exactly when the scaled tokens are
in nondecreasing order, and not in general. -/
theorem c5_range_branch_shape (s : String) (mn mx : Dec)
    (h : _parse_funding s = .ok (some mn, some mx)) :
    mn = mx ∨
    ∃ t1 t2 rest,
      findNumbers (removeCommas (pyStrip s)) = t1 :: t2 :: rest ∧
      mn = scaleThousands (decOfTok t1) ∧
      mx = scaleThousands (decOfTok t2) := by
  unfold _parse_funding at h
  by_cases h0 : s = ""
  · rw [if_pos h0] at h
    simp at h
  rw [if_neg h0] at h
  simp only at h
  by_cases hup : strContains (lowStr (pyStrip s)) "up to" = true
  · rw [hup] at h
    simp only [if_true] at h
    rcases hn : findNumbers (removeCommas (pyStrip s)) with _ | ⟨n, ns⟩
    · rw [hn] at h
      simp only at h
      split at h <;> simp_all
    · rw [hn] at h
      simp at h
  · rw [Bool.not_eq_true] at hup
    rw [hup] at h
    simp only [Bool.false_eq_true, if_false] at h
    by_cases hr :
        (strContains (pyStrip s) "-" || strContains (lowStr (pyStrip s)) "to")
          = true
    · rw [hr] at h
      simp only [if_true] at h
      rcases hn : findNumbers (removeCommas (pyStrip s)) with _ | ⟨n1, _ | ⟨n2, ns⟩⟩
      · rw [hn] at h
        simp at h
      · rw [hn] at h
        simp only [Except.ok.injEq, Prod.mk.injEq, Option.some.injEq] at h
        exact Or.inl (h.1.symm.trans h.2)
      · rw [hn] at h
        simp only [Except.ok.injEq, Prod.mk.injEq, Option.some.injEq] at h
        exact Or.inr ⟨n1, n2, ns, rfl, h.1.symm, h.2.symm⟩

    · rw [Bool.not_eq_true] at hr
      rw [hr] at h
      simp at h

/-- Witness for `c5_range_branch_shape` at `$50,000 - $100,000`, which
parses to `(50, 100)`. -/
theorem c5_range_branch_shape_witness :
    (50 : Dec) = 100 ∨
    ∃ t1 t2 rest,
      findNumbers (removeCommas (pyStrip "$50,000 - $100,000")) =
        t1 :: t2 :: rest ∧
      (50 : Dec) = scaleThousands (decOfTok t1) ∧
      (100 : Dec) = scaleThousands (decOfTok t2) :=
  c5_range_branch_shape "$50,000 - $100,000" 50 100 (by decide)

/-- C6 counterexample: `2024-10-30T00:00:00` contains no status keyword
and matches none of the six formats, yet the parser returns
`2024-10-30` through the trailing ISO-prefix fallback, where the claim
(`specParseDateClaim`) requires null. -/
theorem c6_fallback_counterexample :
    _parse_date "2024-10-30T00:00:00" = some ⟨2024, 10, 30⟩ ∧
    specParseDateClaim "2024-10-30T00:00:00" = none := by
  constructor
  · decide
  · decide

/-- C6 amended: a string containing a status keyword (checked on the
stripped, lower-cased text) always parses to null; otherwise the parser
behaves as the fixed ordered format list followed by the ISO-prefix
fallback (`specParseDateAmended`), rather than returning null whenever
every format fails. -/
theorem c6_keyword_reject_and_fallback (s : String) :
    (dateKeywords.any (fun k => strContains (lowStr (pyStrip s)) k) = true →
      _parse_date s = none) ∧
    _parse_date s = specParseDateAmended s := by
  constructor
  · intro hk
    by_cases h0 : s = ""
    · simp [_parse_date, h0]
    · simp [_parse_date, h0, hk]
  · exact rfl

/-- Witness for `c6_keyword_reject_and_fallback`: the keyword string
`Open for Applications` parses to null even though it contains no date,
and the date `15 Mar 2025` follows the amended description. -/
theorem c6_keyword_reject_and_fallback_witness :
    _parse_date "Open for Applications" = none ∧
    _parse_date "15 Mar 2025" = specParseDateAmended "15 Mar 2025" :=
  ⟨(c6_keyword_reject_and_fallback "Open for Applications").1 (by decide),
   (c6_keyword_reject_and_fallback "15 Mar 2025").2⟩

/-- First-index lookup: a successful `firstIdx` points at an element
satisfying the predicate. -/
theorem firstIdx_some {α : Type} (p : α → Bool) :
    ∀ (l : List α) (i : Nat), firstIdx p l = some i →
      ∃ a, l.get? i = some a ∧ p a = true := by
  intro l
  induction l with
  | nil => intro i h; simp [firstIdx] at h
  | cons x xs ih =>
      intro i h
      unfold firstIdx at h
      by_cases hp : p x
      · rw [if_pos hp] at h
        injection h with h
        subst h
        exact ⟨x, rfl, hp⟩
      · rw [if_neg hp] at h
        cases hfi : firstIdx p xs with
        | none => rw [hfi] at h; simp at h
        | some j =>
            rw [hfi] at h
            simp at h
            subst h
            obtain ⟨a, ha, hpa⟩ := ih j hfi
            exact ⟨a, ha, hpa⟩

/-- Renaming an agency in place keeps the table length. -/
theorem setAgencyName_length (l : List AgencyRec) :
    ∀ (i : Nat) (nm : String), (setAgencyName l i nm).length = l.length := by
  induction l with
  | nil => intro i nm; cases i <;> rfl
  | cons a rest ih =>
      intro i nm
      cases i with
      | zero => rfl
      | succ j => simp [setAgencyName, ih j nm]

/-- Renaming an agency to the name it already has is a no-op. -/
theorem setAgencyName_self (l : List AgencyRec) :
    ∀ (i : Nat) (a : AgencyRec), l.get? i = some a →
      setAgencyName l i a.name = l := by
  induction l with
  | nil => intro i a h; simp at h
  | cons x rest ih =>
      intro i a h
      cases i with
      | zero =>
          injection h with h
          subst h
          rfl
      | succ j =>
          simp only [List.get?_cons_succ] at h
          simp [setAgencyName, ih j a h]

/-- C7 counterexample: for the single-word agency name `Temasek` the code
derives the acronym `TEM` (first three characters uppercased), while the
claim's rule (`specAcronymClaim`, first letter of each of the first three
words) yields `T`. -/
theorem c7_acronym_counterexample :
    _extract_acronym "Temasek" = "TEM" ∧
    specAcronymClaim "Temasek" = "T" ∧ ("TEM" : String) ≠ "T" := by
  refine ⟨by decide, by decide, by decide⟩

/-- C7 amended: when a non-empty agency code resolves to an existing
agency, its name is updated in place (same table length, the resolved
index is returned, and the table is the original with only that name
replaced); when the code is absent the fallback acronym follows the
claim's first-letter rule only for names of at least two words, single
word names taking their first three characters uppercased. -/
theorem c7_agency_resolution (ags : List AgencyRec) (r : RawGrant) (i : Nat)
    (hcode : upStr r.agency_code ≠ "")
    (hidx : firstIdx (acrPred (upStr r.agency_code)) ags = some i) :
    resolveAgency ags r = (setAgencyName ags i r.agency_name, i) ∧
    (setAgencyName ags i r.agency_name).length = ags.length ∧
    (∀ nm : String, 2 ≤ (pySplitWs nm).length →
      _extract_acronym nm = specAcronymClaim nm) := by
  refine ⟨?_, setAgencyName_length ags i r.agency_name, ?_⟩
  · unfold resolveAgency
    rw [if_pos hcode, hidx]
    dsimp only
    obtain ⟨a, ha, hpa⟩ := firstIdx_some _ ags i hidx
    by_cases hnm : a.name = r.agency_name
    · have hany : (ags.get? i).any (fun a => a.name ≠ r.agency_name) = false := by
        rw [ha]
        simp [hnm]
      rw [hany]
      simp only [Bool.false_eq_true, if_false, Prod.mk.injEq]
      refine ⟨?_, trivial⟩
      rw [← hnm]
      exact (setAgencyName_self ags i a ha).symm
    · have hany : (ags.get? i).any (fun a => a.name ≠ r.agency_name) = true := by
        rw [ha]
        simp [hnm]
      rw [hany]
      simp
  · intro nm h
    unfold _extract_acronym specAcronymClaim
    rw [if_pos h]

/-- Witness for `c7_agency_resolution`: the stored agency `(AIC, Old
Name)` is renamed in place to `Agency for Integrated Care` without a
duplicate, exactly as the specification's example demands. -/
theorem c7_agency_resolution_witness :
    resolveAgency [{ acronym := "AIC", name := "Old Name" }]
        { rawWithId with agency_code := "AIC",
                         agency_name := "Agency for Integrated Care" } =
      ([{ acronym := "AIC", name := "Agency for Integrated Care" }], 0) ∧
    ([{ acronym := "AIC", name := "Agency for Integrated Care" }] :
        List AgencyRec).length =
      ([{ acronym := "AIC", name := "Old Name" }] : List AgencyRec).length ∧
    _extract_acronym "Agency for Integrated Care" =
      specAcronymClaim "Agency for Integrated Care" := by
  have h := c7_agency_resolution [{ acronym := "AIC", name := "Old Name" }]
    { rawWithId with agency_code := "AIC",
                     agency_name := "Agency for Integrated Care" } 0
    (by decide) (by decide)
  exact ⟨h.1, h.2.1, h.2.2 "Agency for Integrated Care" (by decide)⟩

/-- C8 counterexample: an application already in the terminal state
`approved` is moved back to `in_progress` by the status-update view, so
terminal states are revisited by the core logic. -/
theorem c8_terminal_counterexample :
    update_application_status
        { status := "approved", submitted_at := some 5, notes := "" }
        "in_progress" 9 =
      .ok { status := "in_progress", submitted_at := some 5, notes := "" } ∧
    ("approved" : String) ≠ "in_progress" := by
  refine ⟨by decide, by decide⟩

/-- C8 amended: applications are created in `in_progress` (both creation
paths), a transition to `submitted` leaves the status `submitted` with a
non-null `submitted_at` stamp, and any valid target status — including a
move out of the terminal states `approved` and `rejected` — is applied
unconditionally: the code has no terminal-state protection. -/
theorem c8_lifecycle :
    (∀ ex : Option AppM, (start_application ex).status = "in_progress") ∧
    (∀ notes : String, (application_create notes).status = "in_progress") ∧
    (∀ (a : AppM) (now : Nat) (a' : AppM),
      update_application_status a "submitted" now = .ok a' →
      a'.status = "submitted" ∧ a'.submitted_at ≠ none) ∧
    (∀ (a : AppM) (ns : String) (now : Nat) (a' : AppM),
      update_application_status a ns now = .ok a' → a'.status = ns) := by
  refine ⟨?_, ?_, ?_, ?_⟩
  · intro ex
    cases ex with
    | none => rfl
    | some a =>
        unfold start_application
        dsimp only
        by_cases h : a.status ≠ "in_progress"
        · rw [if_pos h]
        · rw [if_neg h]
          push_neg at h
          exact h
  · intro notes; rfl
  · intro a now a' h
    unfold update_application_status at h
    rw [if_pos (by decide)] at h
    injection h with h
    subst h
    refine ⟨rfl, ?_⟩
    by_cases hs : a.submitted_at = none
    · simp [hs]
    · simp [hs]
  · intro a ns now a' h
    unfold update_application_status at h
    by_cases hv : validStatuses.contains ns = true
    · rw [if_pos hv] at h
      injection h with h
      subst h
      rfl
    · rw [if_neg hv] at h
      exact absurd h (by simp)

/-- Witness for `c8_lifecycle`: a fresh application starts in progress,
and submitting stamps the timestamp. -/
theorem c8_lifecycle_witness :
    (start_application none).status = "in_progress" ∧
    ((update_application_status
        { status := "in_progress", submitted_at := none, notes := "" }
        "submitted" 7 =
          .ok { status := "submitted", submitted_at := some 7, notes := "" }) ∧
      ("submitted" : String) = "submitted") := by
  refine ⟨c8_lifecycle.1 none, by decide, rfl⟩

/-- C9 counterexample: an active and enabled record with traffic-light
code `blue` — neither green nor red — is mapped to status `closed`
because the word `Closed` occurs among its closing dates, where the
claim requires every non-green non-red code to map to `open`. -/
theorem c9_status_counterexample :
    processApiRecord metaBlueClosed = .ok (some rawBlueClosed) ∧
    rawBlueClosed.status = "closed" ∧ metaBlueClosed.status = some "blue" := by
  refine ⟨by decide, by decide, by decide⟩

/-- C9 amended: whenever processing a metadata record returns normally
(the funding parser can raise and abort the whole fetch), a record is
yielded exactly when the record is flagged both active and enabled, and
the yielded status follows `specStatusC9`: green maps to open; red, or
the word `closed` occurring in the rendered closing-dates mapping, maps
to closed; anything else maps to open. -/
theorem c9_fetch_filter_and_status (m : MetaRec) (res : Option RawGrant)
    (h : processApiRecord m = .ok res) :
    (res.isSome ↔ (m.active = some "true" ∧ m.enabled = some "true")) ∧
    (∀ g, res = some g →
      g.status = specStatusC9 (m.status.getD "open")
        (reprDict m.closing_dates)) := by
  unfold processApiRecord at h
  by_cases hae : m.active ≠ some "true" ∨ m.enabled ≠ some "true"
  · rw [if_pos hae] at h
    injection h with h
    subst h
    constructor
    · simp only [Option.isSome_none, Bool.false_eq_true, false_iff]
      intro hc
      rcases hae with h1 | h2
      · exact h1 hc.1
      · exact h2 hc.2
    · intro g hg
      exact absurd hg (by simp)
  · rw [if_neg hae] at h
    push_neg at hae
    dsimp only at h
    cases hF : fundingOfMeta m with
    | error e => rw [hF] at h; exact absurd h (by simp)
    | ok pr =>
        rw [hF] at h
        obtain ⟨fmin, fmax⟩ := pr
        dsimp only at h
        injection h with h
        subst h
        constructor
        · simp [hae.1, hae.2]
        · intro g hg
          injection hg with hg
          subst hg
          rfl

/-- Witness for `c9_fetch_filter_and_status` at `metaGreen`, which is
yielded with status `open`. -/
theorem c9_fetch_filter_and_status_witness :
    ((processApiRecord metaGreen).toOption.bind id).isSome ↔
      (metaGreen.active = some "true" ∧ metaGreen.enabled = some "true") := by
  have h := c9_fetch_filter_and_status metaGreen
    ((processApiRecord metaGreen).toOption.bind id |>.map id) (by decide)
  simpa using h.1

/-- The empty pattern is a substring of every string, as Python's
`'' in s` is always true. -/
theorem listHasSub_nil (l : List Char) : listHasSub [] l = true := by
  cases l <;> simp [listHasSub, listHasPre]

/-- C10 counterexample: a project with empty focus area does receive the
+30 bonus, but against this open grant the scorer then raises a
`TypeError` (`budget_required_max` is null while both minimum fields are
truthy), so it produces no score at all — in particular not one of at
least 40. -/
theorem c10_crash_counterexample :
    scoreGrantForProject projNoMax grantOverlap = .error () ∧
    projNoMax.focus_area = "" ∧ grantOverlap.status = "open" := by
  refine ⟨by decide, by decide, by decide⟩

/-- C10 amended: whenever the scorer returns normally, a project whose
focus area is the empty string receives the +30 focus bonus (the empty
string is a substring of every description, so the focus reason leads
the reasons list) and scores at least 40; when the budget comparison
raises instead, no score is produced. -/
theorem c10_empty_focus_bonus (p : ProjectM) (g : GrantM) (s : Nat)
    (rs : List String) (hf : p.focus_area = "")
    (h : scoreGrantForProject p g = .ok (s, rs)) :
    40 ≤ s ∧ rs.head? = some (focusReason "") := by
  unfold scoreGrantForProject at h
  rw [hf] at h
  have hc : strContains (lowStr g.description) (lowStr "") = true :=
    listHasSub_nil _
  rw [hc] at h
  simp only [if_true] at h
  split at h
  · exact absurd h (by simp)
  · simp only [Except.ok.injEq, Prod.mk.injEq] at h
    obtain ⟨hs, hrs⟩ := h
    constructor
    · omega
    · rw [← hrs]
      rfl

/-- Witness for `c10_empty_focus_bonus`: against `grantOverlap` the
project `projEmptyFocus` scores 65 with the focus reason first. -/
theorem c10_empty_focus_bonus_witness :
    40 ≤ 65 ∧
    ([focusReason "", "Budget range matches your requirements"] :
        List String).head? = some (focusReason "") :=
  c10_empty_focus_bonus projEmptyFocus grantOverlap 65
    [focusReason "", "Budget range matches your requirements"]
    (by decide) (by decide)

/-- A truthy optional decimal is a truthy value. -/
theorem truthyOpt_some (x : Option Dec) (h : truthyOpt x = true) :
    ∃ v, x = some v ∧ v.truthy = true := by
  cases x with
  | none => simp [truthyOpt] at h
  | some v => exact ⟨v, rfl, h⟩

/-- Characterization of the budget rule on normal returns: it awards 25
with its reason exactly when the guarded overlap condition `budgetHit`
holds. -/
theorem budgetRule_ok_eq (p : ProjectM) (g : GrantM) (b : Nat × List String)
    (h : budgetRule p g = .ok b) :
    b = (if budgetHit p g then 25 else 0,
         if budgetHit p g then ["Budget range matches your requirements"]
         else []) := by
  unfold budgetRule at h
  by_cases hg : (truthyOpt p.budget_required_min && truthyOpt g.funding_min)
      = true
  · rw [if_pos hg] at h
    cases hfm : g.funding_min with
    | none => rw [hfm] at hg; simp [truthyOpt] at hg
    | some gmin =>
        rw [hfm] at h
        cases hbm : p.budget_required_max with
        | none => rw [hbm] at h; exact absurd h (by simp)
        | some pmax =>
            rw [hbm] at h
            dsimp only at h
            by_cases hle : Dec.ble gmin pmax = true
            · rw [if_pos hle] at h
              cases hgx : g.funding_max with
              | none => rw [hgx] at h; exact absurd h (by simp)
              | some gmax =>
                  rw [hgx] at h
                  cases hpm : p.budget_required_min with
                  | none => rw [hpm] at hg; simp [truthyOpt] at hg
                  | some pmin =>
                      rw [hpm] at h
                      dsimp only at h
                      rw [hpm] at hg
                      by_cases hle2 : Dec.ble pmin gmax = true
                      · rw [if_pos hle2] at h
                        injection h with h
                        subst h
                        have hbh : budgetHit p g = true := by
                          simp only [budgetHit, overlapClaim, hfm, hbm, hgx,
                            hpm]
                          rw [hfm] at hg
                          simp only [Bool.and_eq_true] at hg
                          simp [hg.1, hg.2, hle, hle2]
                        rw [hbh]
                        simp
                      · rw [if_neg hle2] at h
                        injection h with h
                        subst h
                        have hbh : budgetHit p g = false := by
                          simp only [budgetHit, overlapClaim, hfm, hbm, hgx,
                            hpm]
                          simp only [Bool.not_eq_true] at hle2
                          simp [hle2]
                        rw [hbh]
                        simp
            · rw [if_neg hle] at h
              injection h with h
              subst h
              have hbh : budgetHit p g = false := by
                simp only [budgetHit, overlapClaim, hfm, hbm]
                simp only [Bool.not_eq_true] at hle
                cases hgx : g.funding_max <;> cases hpm : p.budget_required_min
                  <;> simp [hle]
              rw [hbh]
              simp
  · rw [if_neg hg] at h
    injection h with h
    subst h
    have hbh : budgetHit p g = false := by
      simp only [Bool.not_eq_true] at hg
      simp [budgetHit, hg]
    rw [hbh]
    simp

/-- C1 counterexample: the project's budget minimum is `0`, which is
falsy, so the code's truthiness guard suppresses the +25 bonus even
though the budget ranges overlap exactly as the claim's condition
demands: the code scores 10 where the claim's formula (`specScoreC1`)
gives 35. -/
theorem c1_guard_counterexample :
    scoreGrantForProject projZeroBudget grantOverlap = .ok (10, []) ∧
    overlapClaim projZeroBudget grantOverlap = true ∧
    specScoreC1 projZeroBudget grantOverlap = 35 := by
  refine ⟨by decide, by decide, by decide⟩

/-- C1 amended: whenever the scorer returns normally (it raises a
`TypeError` when the truthiness guard passes but a compared maximum
field is null), the score is the fixed-weight sum with the budget bonus
additionally guarded by truthiness of both minimum fields, the cap at
100 never binds, and the reasons appear in rule order.  Determinism is
by construction: the embedding is a pure function of the two records. -/
theorem c1_score_formula (p : ProjectM) (g : GrantM) (s : Nat)
    (rs : List String) (h : scoreGrantForProject p g = .ok (s, rs)) :
    s = (if focusHit p g then 30 else 0) + (if budgetHit p g then 25 else 0) +
        (if kpiHit p g then 20 else 0) + (if durHit p g then 15 else 0) + 10 ∧
    s ≤ 100 ∧ min s 100 = s ∧
    rs = (if focusHit p g then [focusReason p.focus_area] else []) ++
         (if budgetHit p g then ["Budget range matches your requirements"]
          else []) ++
         (if kpiHit p g then ["KPIs align with your service outcomes"]
          else []) ++
         (if durHit p g then ["Timeline aligns with project scope"]
          else []) := by
  unfold scoreGrantForProject at h
  cases hb : budgetRule p g with
  | error e => rw [hb] at h; exact absurd h (by simp)
  | ok b =>
      rw [hb] at h
      have hbe := budgetRule_ok_eq p g b hb
      subst hbe
      dsimp only at h
      injection h with h
      simp only [Prod.mk.injEq] at h
      obtain ⟨hs, hrs⟩ := h
      subst hs
      subst hrs
      simp only [focusHit, kpiHit, durHit]
      by_cases hF :
          strContains (lowStr g.description) (lowStr p.focus_area) = true <;>
        by_cases hB : budgetHit p g = true <;>
        by_cases hK : (truthyStr p.kpis && truthyStr g.description) = true <;>
        by_cases hD :
          (truthyStr p.duration_years && truthyStr g.duration_years) = true <;>
        simp [hF, hB, hK, hD]

/-- Witness for `c1_score_formula`: `projFull` against `grantFull` fires
every rule and scores exactly 100 with the four reasons in rule order. -/
theorem c1_score_formula_witness :
    100 = (if focusHit projFull grantFull then 30 else 0) +
          (if budgetHit projFull grantFull then 25 else 0) +
          (if kpiHit projFull grantFull then 20 else 0) +
          (if durHit projFull grantFull then 15 else 0) + 10 ∧
    100 ≤ 100 ∧ min 100 100 = 100 ∧
    [focusReason "care", "Budget range matches your requirements",
     "KPIs align with your service outcomes",
     "Timeline aligns with project scope"] =
      (if focusHit projFull grantFull then [focusReason "care"] else []) ++
      (if budgetHit projFull grantFull then
        ["Budget range matches your requirements"] else []) ++
      (if kpiHit projFull grantFull then
        ["KPIs align with your service outcomes"] else []) ++
      (if durHit projFull grantFull then
        ["Timeline aligns with project scope"] else []) :=
  c1_score_formula projFull grantFull 100
    [focusReason "care", "Budget range matches your requirements",
     "KPIs align with your service outcomes",
     "Timeline aligns with project scope"] (by decide)

/-- Keys present after an upsert: the upserted key or an original key. -/
theorem keyOf_upsert_mem (pid gid sc : Nat) (rs : List String) :
    ∀ (S : List MatchRec) (k : Nat × Nat),
      k ∈ (upsertMatch pid gid sc rs S).map keyOf →
      k = (pid, gid) ∨ k ∈ S.map keyOf := by
  intro S
  induction S with
  | nil =>
      intro k hk
      simp [upsertMatch, keyOf] at hk
      exact Or.inl (by simp [hk])
  | cons r rest ih =>
      intro k hk
      unfold upsertMatch at hk
      by_cases hkey : keyEq pid gid r = true
      · rw [if_pos hkey] at hk
        simp only [List.map_cons, List.mem_cons] at hk
        rcases hk with hk | hk
        · simp only [keyEq, Bool.and_eq_true, decide_eq_true_eq] at hkey
          exact Or.inl (by simp [hk, keyOf, hkey.1, hkey.2])
        · exact Or.inr (by
            simp only [List.map_cons, List.mem_cons]
            exact Or.inr hk)
      · rw [if_neg hkey] at hk
        simp only [List.map_cons, List.mem_cons] at hk
        rcases hk with hk | hk
        · exact Or.inr (by
            simp only [List.map_cons, List.mem_cons]
            exact Or.inl hk)
        · rcases ih k hk with h | h
          · exact Or.inl h
          · exact Or.inr (by
              simp only [List.map_cons, List.mem_cons]
              exact Or.inr h)

/-- Upserting preserves key uniqueness. -/
theorem upsert_nodup (pid gid sc : Nat) (rs : List String) :
    ∀ S : List MatchRec, keysNodup S →
      keysNodup (upsertMatch pid gid sc rs S) := by
  intro S
  induction S with
  | nil => intro _; simp [upsertMatch, keysNodup, keyOf]
  | cons r rest ih =>
      intro hnd
      unfold keysNodup at hnd ⊢
      unfold upsertMatch
      by_cases hkey : keyEq pid gid r = true
      · rw [if_pos hkey]
        exact hnd
      · rw [if_neg hkey]
        simp only [List.map_cons, List.nodup_cons] at hnd ⊢
        obtain ⟨hni, hnd'⟩ := hnd
        refine ⟨?_, ih hnd'⟩
        intro hmem
        rcases keyOf_upsert_mem pid gid sc rs rest (keyOf r) hmem with h | h
        · apply hkey
          simp only [keyOf, Prod.mk.injEq] at h
          simp [keyEq, h.1, h.2]
        · exact hni h

/-- Key uniqueness bounds the per-pair row count by one. -/
theorem nodup_countP_le_one :
    ∀ S : List MatchRec, keysNodup S →
      ∀ pid gid, List.countP (keyEq pid gid) S ≤ 1 := by
  intro S
  induction S with
  | nil => intro _ pid gid; simp
  | cons r rest ih =>
      intro hnd pid gid
      unfold keysNodup at hnd
      simp only [List.map_cons, List.nodup_cons] at hnd
      obtain ⟨hni, hnd'⟩ := hnd
      rw [List.countP_cons]
      by_cases hk : keyEq pid gid r = true
      · have h0 : List.countP (keyEq pid gid) rest = 0 := by
          rw [List.countP_eq_zero]
          intro x hx hpx
          apply hni
          simp only [keyEq, Bool.and_eq_true, decide_eq_true_eq] at hpx hk
          have hxr : keyOf x = keyOf r := by
            simp [keyOf, hpx.1, hpx.2, hk.1, hk.2]
          rw [← hxr]
          exact List.mem_map_of_mem keyOf hx
        rw [h0, hk]
        simp
      · simp only [Bool.not_eq_true] at hk
        rw [hk]
        simpa using ih hnd' pid gid

/-- The row an upsert leaves for its own key: score and reasons written,
saved flag preserved (or false on creation). -/
theorem upsert_find (pid gid sc : Nat) (rs : List String) :
    ∀ S : List MatchRec,
      findMatch (upsertMatch pid gid sc rs S) pid gid = some
        { projectId := pid, grantId := gid, match_score := sc,
          match_reasons := rs,
          is_saved := ((findMatch S pid gid).map MatchRec.is_saved).getD
            false } := by
  intro S
  induction S with
  | nil => simp [upsertMatch, findMatch, keyEq]
  | cons r rest ih =>
      unfold upsertMatch findMatch
      by_cases hk : keyEq pid gid r = true
      · have hk' :
            keyEq pid gid
              { r with match_score := sc, match_reasons := rs } = true := hk
        rw [if_pos hk]
        rw [List.find?_cons_of_pos _ hk', List.find?_cons_of_pos _ hk]
        simp only [keyEq, Bool.and_eq_true, decide_eq_true_eq] at hk
        simp [hk.1, hk.2]
      · rw [if_neg hk]
        have hkf : keyEq pid gid r ≠ true := hk
        rw [List.find?_cons_of_neg _ hkf, List.find?_cons_of_neg _ hkf]
        exact ih

/-- The length an upsert leaves: unchanged when the key existed, one more
otherwise. -/
theorem upsert_length (pid gid sc : Nat) (rs : List String) :
    ∀ S : List MatchRec,
      (upsertMatch pid gid sc rs S).length =
        S.length + (if (findMatch S pid gid).isSome then 0 else 1) := by
  intro S
  induction S with
  | nil => simp [upsertMatch, findMatch]
  | cons r rest ih =>
      unfold upsertMatch findMatch
      by_cases hk : keyEq pid gid r = true
      · rw [if_pos hk, List.find?_cons_of_pos _ hk]
        simp
      · have hkf : keyEq pid gid r ≠ true := hk
        rw [if_neg hk, List.find?_cons_of_neg _ hkf]
        simp only [List.length_cons]
        unfold findMatch at ih
        rw [ih]
        omega

/-- Keys present after a save toggle: the toggled key or an original
key. -/
theorem keyOf_toggle_mem (pid gid : Nat) (g : GrantM) :
    ∀ (S : List MatchRec) (k : Nat × Nat),
      k ∈ (toggle_save_grant pid gid g S).map keyOf →
      k = (pid, gid) ∨ k ∈ S.map keyOf := by
  intro S
  induction S with
  | nil =>
      intro k hk
      simp [toggle_save_grant, keyOf] at hk
      exact Or.inl (by simp [hk])
  | cons r rest ih =>
      intro k hk
      unfold toggle_save_grant at hk
      by_cases hkey : keyEq pid gid r = true
      · rw [if_pos hkey] at hk
        simp only [List.map_cons, List.mem_cons] at hk
        rcases hk with hk | hk
        · simp only [keyEq, Bool.and_eq_true, decide_eq_true_eq] at hkey
          exact Or.inl (by simp [hk, keyOf, hkey.1, hkey.2])
        · exact Or.inr (by
            simp only [List.map_cons, List.mem_cons]
            exact Or.inr hk)
      · rw [if_neg hkey] at hk
        simp only [List.map_cons, List.mem_cons] at hk
        rcases hk with hk | hk
        · exact Or.inr (by
            simp only [List.map_cons, List.mem_cons]
            exact Or.inl hk)
        · rcases ih k hk with h | h
          · exact Or.inl h
          · exact Or.inr (by
              simp only [List.map_cons, List.mem_cons]
              exact Or.inr h)

/-- Toggling the saved flag preserves key uniqueness. -/
theorem toggle_nodup (pid gid : Nat) (g : GrantM) :
    ∀ S : List MatchRec, keysNodup S →
      keysNodup (toggle_save_grant pid gid g S) := by
  intro S
  induction S with
  | nil => intro _; simp [toggle_save_grant, keysNodup, keyOf]
  | cons r rest ih =>
      intro hnd
      unfold keysNodup at hnd ⊢
      unfold toggle_save_grant
      by_cases hkey : keyEq pid gid r = true
      · rw [if_pos hkey]
        exact hnd
      · rw [if_neg hkey]
        simp only [List.map_cons, List.nodup_cons] at hnd ⊢
        obtain ⟨hni, hnd'⟩ := hnd
        refine ⟨?_, ih hnd'⟩
        intro hmem
        rcases keyOf_toggle_mem pid gid g rest (keyOf r) hmem with h | h
        · apply hkey
          simp only [keyOf, Prod.mk.injEq] at h
          simp [keyEq, h.1, h.2]
        · exact hni h

/-- C3: for every project and grant, the recomputation step materializes
a match row only at score 70 or above — a lower score leaves the stored
rows exactly as they were, neither creating nor deleting — the key
uniqueness invariant (at most one row per (project, grant)) is preserved
by recomputation and by the save toggle, and a materializing
recomputation upserts: the pair's single row carries the capped score
and the first three reasons, the saved flag survives, and the table
grows only when the pair was absent. -/
theorem c3_match_materialization (S : List MatchRec) (pid gid : Nat)
    (p : ProjectM) (g : GrantM) (sc : Nat) (rs : List String)
    (hnd : keysNodup S) (hsc : scoreGrantForProject p g = .ok (sc, rs)) :
    (sc < 70 → recomputePair S pid p gid g = .ok S) ∧
    (∀ S', recomputePair S pid p gid g = .ok S' →
      keysNodup S' ∧
      (∀ pid' gid', List.countP (keyEq pid' gid') S' ≤ 1) ∧
      (70 ≤ sc →
        findMatch S' pid gid = some
          { projectId := pid, grantId := gid, match_score := min sc 100,
            match_reasons := rs.take 3,
            is_saved := ((findMatch S pid gid).map MatchRec.is_saved).getD
              false } ∧
        S'.length = S.length +
          (if (findMatch S pid gid).isSome then 0 else 1))) ∧
    keysNodup (toggle_save_grant pid gid g S) ∧
    (∀ pid' gid',
      List.countP (keyEq pid' gid') (toggle_save_grant pid gid g S) ≤ 1) := by
  refine ⟨?_, ?_, toggle_nodup pid gid g S hnd,
    fun pid' gid' =>
      nodup_countP_le_one _ (toggle_nodup pid gid g S hnd) pid' gid'⟩
  · intro hlt
    unfold recomputePair
    rw [hsc]
    dsimp only
    rw [if_neg (by omega)]
  · intro S' hS'
    unfold recomputePair at hS'
    rw [hsc] at hS'
    dsimp only at hS'
    by_cases hge : 70 ≤ sc
    · rw [if_pos hge] at hS'
      injection hS' with hS'
      subst hS'
      refine ⟨upsert_nodup pid gid (min sc 100) (rs.take 3) S hnd,
        fun pid' gid' =>
          nodup_countP_le_one _
            (upsert_nodup pid gid (min sc 100) (rs.take 3) S hnd) pid' gid',
        fun _ =>
          ⟨upsert_find pid gid (min sc 100) (rs.take 3) S,
           upsert_length pid gid (min sc 100) (rs.take 3) S⟩⟩
    · rw [if_neg hge] at hS'
      injection hS' with hS'
      subst hS'
      exact ⟨hnd, fun pid' gid' => nodup_countP_le_one S hnd pid' gid',
        fun h70 => absurd h70 hge⟩

/-- Witness for `c3_match_materialization`: recomputing `projFull`
against `grantFull` (score 100) over empty storage creates exactly the
one expected row. -/
theorem c3_match_materialization_witness :
    (100 < 70 → recomputePair [] 1 projFull 2 grantFull = .ok []) ∧
    (∀ S', recomputePair [] 1 projFull 2 grantFull = .ok S' →
      keysNodup S' ∧
      (∀ pid' gid', List.countP (keyEq pid' gid') S' ≤ 1) ∧
      (70 ≤ 100 →
        findMatch S' 1 2 = some
          { projectId := 1, grantId := 2, match_score := min 100 100,
            match_reasons :=
              [focusReason "care", "Budget range matches your requirements",
               "KPIs align with your service outcomes",
               "Timeline aligns with project scope"].take 3,
            is_saved :=
              ((findMatch [] 1 2).map MatchRec.is_saved).getD false } ∧
        S'.length = ([] : List MatchRec).length +
          (if (findMatch ([] : List MatchRec) 1 2).isSome then 0 else 1))) ∧
    keysNodup (toggle_save_grant 1 2 grantFull []) ∧
    (∀ pid' gid',
      List.countP (keyEq pid' gid') (toggle_save_grant 1 2 grantFull []) ≤ 1) :=
  c3_match_materialization [] 1 2 projFull grantFull 100
    [focusReason "care", "Budget range matches your requirements",
     "KPIs align with your service outcomes",
     "Timeline aligns with project scope"]
    (by simp [keysNodup]) (by decide)

/-- An element witnessed by `get?` lies before the end of the list. -/
theorem get?_some_lt {α : Type} (l : List α) (i : Nat) (a : α)
    (h : l.get? i = some a) : i < l.length := by
  by_contra hlt
  push_neg at hlt
  rw [List.get?_eq_none.mpr hlt] at h
  exact Option.noConfusion h

/-- A successful `firstIdx` is unaffected by appending an element. -/
theorem firstIdx_append_of_some {α : Type} (p : α → Bool) (x : α) :
    ∀ (l : List α) (i : Nat), firstIdx p l = some i →
      firstIdx p (l ++ [x]) = some i := by
  intro l
  induction l with
  | nil => intro i h; simp [firstIdx] at h
  | cons y ys ih =>
      intro i h
      simp only [List.cons_append]
      unfold firstIdx at h ⊢
      by_cases hp : p y
      · rw [if_pos hp] at h ⊢; exact h
      · rw [if_neg hp] at h ⊢
        cases hfi : firstIdx p ys with
        | none => rw [hfi] at h; simp at h
        | some j =>
            rw [hfi] at h
            rw [ih j hfi]
            exact h

/-- A failed `firstIdx` finds a satisfying appended element at the end. -/
theorem firstIdx_append_of_none {α : Type} (p : α → Bool) (x : α)
    (hx : p x = true) :
    ∀ l : List α, firstIdx p l = none →
      firstIdx p (l ++ [x]) = some l.length := by
  intro l
  induction l with
  | nil => intro _; simp [firstIdx, hx]
  | cons y ys ih =>
      intro h
      simp only [List.cons_append]
      unfold firstIdx at h ⊢
      by_cases hp : p y
      · rw [if_pos hp] at h; simp at h
      · rw [if_neg hp] at h ⊢
        cases hfi : firstIdx p ys with
        | none => rw [ih hfi]; simp
        | some j => rw [hfi] at h; simp at h

/-- Elementwise description of an in-place agency rename. -/
theorem setAgencyName_get? (l : List AgencyRec) :
    ∀ (i : Nat) (nm : String) (k : Nat),
      (setAgencyName l i nm).get? k =
        if k = i then (l.get? k).map (fun a => { a with name := nm })
        else l.get? k := by
  induction l with
  | nil => intro i nm k; cases i <;> cases k <;> simp [setAgencyName]
  | cons a rest ih =>
      intro i nm k
      cases i with
      | zero =>
          cases k with
          | zero => simp [setAgencyName]
          | succ kk => simp [setAgencyName]
      | succ j =>
          cases k with
          | zero => simp [setAgencyName]
          | succ kk =>
              simp only [setAgencyName, List.get?_cons_succ]
              rw [ih j nm kk]
              by_cases hk : kk = j
              · simp [hk]
              · simp [hk, (by omega : ¬(kk + 1 = j + 1))]

/-- Renaming never moves an acronym lookup. -/
theorem firstIdx_acr_setAgencyName (c : String) (l : List AgencyRec) :
    ∀ (i : Nat) (nm : String),
      firstIdx (acrPred c) (setAgencyName l i nm) =
        firstIdx (acrPred c) l := by
  induction l with
  | nil => intro i nm; cases i <;> rfl
  | cons a rest ih =>
      intro i nm
      cases i with
      | zero => simp [setAgencyName, firstIdx, acrPred]
      | succ j => simp [setAgencyName, firstIdx, ih j nm]

/-- Elementwise description of an in-place grant update. -/
theorem setGrantAt_get? (l : List GrantRec) :
    ∀ (j : Nat) (r : RawGrant) (aIdx k : Nat),
      (setGrantAt l j r aIdx).get? k =
        if k = j then (l.get? k).map (fun g => applyGrantDefaults g r aIdx)
        else l.get? k := by
  induction l with
  | nil => intro j r aIdx k; cases j <;> cases k <;> simp [setGrantAt]
  | cons g rest ih =>
      intro j r aIdx k
      cases j with
      | zero =>
          cases k with
          | zero => simp [setGrantAt]
          | succ kk => simp [setGrantAt]
      | succ jj =>
          cases k with
          | zero => simp [setGrantAt]
          | succ kk =>
              simp only [setGrantAt, List.get?_cons_succ]
              rw [ih jj r aIdx kk]
              by_cases hk : kk = jj
              · simp [hk]
              · simp [hk, (by omega : ¬(kk + 1 = jj + 1))]

/-- Updating the row an external-id lookup found keeps the lookup there:
the written row carries the same external id. -/
theorem firstIdx_ext_setGrantAt_self (e : String) (r : RawGrant)
    (hre : r.external_id = e) :
    ∀ (l : List GrantRec) (j aIdx : Nat),
      firstIdx (extPred e) l = some j →
      firstIdx (extPred e) (setGrantAt l j r aIdx) = some j := by
  intro l
  induction l with
  | nil => intro j aIdx h; simp [firstIdx] at h
  | cons g rest ih =>
      intro j aIdx h
      unfold firstIdx at h
      by_cases hp : extPred e g = true
      · rw [if_pos hp] at h
        injection h with h
        subst h
        simp [setGrantAt, firstIdx, extPred, applyGrantDefaults, hre]
      · rw [if_neg hp] at h
        cases hfi : firstIdx (extPred e) rest with
        | none => rw [hfi] at h; simp at h
        | some j0 =>
            rw [hfi] at h
            simp at h
            subst h
            simp only [setGrantAt]
            unfold firstIdx
            rw [if_neg hp, ih j0 aIdx hfi]
            rfl

/-- Updating a different row with a different external id keeps an
external-id lookup where it was. -/
theorem firstIdx_ext_setGrantAt_other (e : String) (r : RawGrant)
    (hre : r.external_id ≠ e) :
    ∀ (l : List GrantRec) (j j' aIdx : Nat), j' ≠ j →
      firstIdx (extPred e) l = some j →
      firstIdx (extPred e) (setGrantAt l j' r aIdx) = some j := by
  intro l
  induction l with
  | nil => intro j j' aIdx _ h; simp [firstIdx] at h
  | cons g rest ih =>
      intro j j' aIdx hne h
      unfold firstIdx at h
      by_cases hp : extPred e g = true
      · rw [if_pos hp] at h
        injection h with h
        subst h
        cases j' with
        | zero => exact absurd rfl hne
        | succ jj =>
            simp only [setGrantAt]
            unfold firstIdx
            rw [if_pos hp]
      · rw [if_neg hp] at h
        cases hfi : firstIdx (extPred e) rest with
        | none => rw [hfi] at h; simp at h
        | some j0 =>
            rw [hfi] at h
            simp at h
            subst h
            cases j' with
            | zero =>
                simp only [setGrantAt]
                unfold firstIdx
                have hp' : extPred e (applyGrantDefaults g r aIdx) = false := by
                  simp [extPred, applyGrantDefaults, hre]
                rw [if_neg (by simp [hp']), hfi]
                rfl
            | succ jj =>
                simp only [setGrantAt]
                unfold firstIdx
                rw [if_neg hp, ih j0 jj aIdx (by omega) hfi]
                rfl

/-- Writing back the values a row already has changes nothing. -/
theorem setGrantAt_self :
    ∀ (l : List GrantRec) (j : Nat) (r : RawGrant) (aIdx : Nat)
      (g : GrantRec), l.get? j = some g → applyGrantDefaults g r aIdx = g →
      setGrantAt l j r aIdx = l := by
  intro l
  induction l with
  | nil => intro j r aIdx g h _; simp at h
  | cons x rest ih =>
      intro j r aIdx g h he
      cases j with
      | zero =>
          injection h with h
          subst h
          simp [setGrantAt, he]
      | succ jj =>
          simp only [List.get?_cons_succ] at h
          simp [setGrantAt, ih jj r aIdx g h he]

/-- The sync defaults are idempotent over a row. -/
theorem applyGrantDefaults_idem (g : GrantRec) (r : RawGrant) (i : Nat) :
    applyGrantDefaults (applyGrantDefaults g r i) r i =
      applyGrantDefaults g r i := rfl

/-- With a non-empty external id the grant lookup is lookup by external
id, whatever agency index was resolved. -/
theorem grantLookup_ext (r : RawGrant) (aIdx : Nat)
    (hext : r.external_id ≠ "") :
    (fun g => grantLookup r aIdx g) = extPred r.external_id := by
  funext g
  unfold grantLookup extPred
  rw [if_pos hext]

/-- Agency resolution for a known code: the name is written in place
(possibly a no-op) and the found index returned. -/
theorem resolveAgency_found_eq (ags : List AgencyRec) (r : RawGrant)
    (i : Nat) (hcode : upStr r.agency_code ≠ "")
    (hidx : firstIdx (acrPred (upStr r.agency_code)) ags = some i) :
    resolveAgency ags r = (setAgencyName ags i r.agency_name, i) := by
  unfold resolveAgency
  rw [if_pos hcode, hidx]
  dsimp only
  obtain ⟨a, ha, hpa⟩ := firstIdx_some _ ags i hidx
  by_cases hnm : a.name = r.agency_name
  · have hany : (ags.get? i).any (fun a => a.name ≠ r.agency_name) = false := by
      rw [ha]; simp [hnm]
    rw [hany]
    simp only [Bool.false_eq_true, if_false, Prod.mk.injEq]
    refine ⟨?_, trivial⟩
    rw [← hnm]
    exact (setAgencyName_self ags i a ha).symm
  · have hany : (ags.get? i).any (fun a => a.name ≠ r.agency_name) = true := by
      rw [ha]; simp [hnm]
    rw [hany]
    simp

/-- Agency resolution for an unknown code: append and return the new
index. -/
theorem resolveAgency_notfound_eq (ags : List AgencyRec) (r : RawGrant)
    (hcode : upStr r.agency_code ≠ "")
    (hidx : firstIdx (acrPred (upStr r.agency_code)) ags = none) :
    resolveAgency ags r =
      (ags ++ [{ acronym := upStr r.agency_code, name := r.agency_name }],
       ags.length) := by
  unfold resolveAgency
  rw [if_pos hcode, hidx]

/-- After resolving a record's agency (non-empty code), the agency table
holds its acronym with its name at the returned index. -/
theorem agency_establish (ags : List AgencyRec) (r : RawGrant)
    (hcode : agencyKey r ≠ "") :
    ∃ i a, firstIdx (acrPred (agencyKey r)) (resolveAgency ags r).1 = some i ∧
      (resolveAgency ags r).1.get? i = some a ∧ a.name = r.agency_name ∧
      (resolveAgency ags r).2 = i := by
  cases hA : firstIdx (acrPred (agencyKey r)) ags with
  | some i =>
      rw [resolveAgency_found_eq ags r i hcode hA]
      obtain ⟨a, ha, hpa⟩ := firstIdx_some _ ags i hA
      refine ⟨i, { a with name := r.agency_name }, ?_, ?_, rfl, rfl⟩
      · rw [firstIdx_acr_setAgencyName (agencyKey r) ags i r.agency_name]
        exact hA
      · rw [setAgencyName_get? ags i r.agency_name i, if_pos rfl, ha]
        rfl
  | none =>
      rw [resolveAgency_notfound_eq ags r hcode hA]
      refine ⟨ags.length, { acronym := agencyKey r, name := r.agency_name },
        ?_, ?_, rfl, rfl⟩
      · exact firstIdx_append_of_none _ _ (by simp [acrPred, agencyKey]) ags hA
      · exact List.get?_concat_length ags _

/-- After upserting a record's grant (non-empty external id), the grant
table holds a row under its external id carrying exactly the synced
values. -/
theorem upsertGrant_establish (grants : List GrantRec) (r : RawGrant)
    (aIdx : Nat) (hext : r.external_id ≠ "") :
    ∃ j g,
      firstIdx (extPred r.external_id) (upsertGrantFM grants r aIdx).1 =
        some j ∧
      (upsertGrantFM grants r aIdx).1.get? j = some g ∧
      g = applyGrantDefaults g r aIdx := by
  unfold upsertGrantFM
  rw [grantLookup_ext r aIdx hext]
  cases hG : firstIdx (extPred r.external_id) grants with
  | some j =>
      dsimp only
      obtain ⟨g, hg, hpg⟩ := firstIdx_some _ grants j hG
      refine ⟨j, applyGrantDefaults g r aIdx, ?_, ?_, ?_⟩
      · exact firstIdx_ext_setGrantAt_self r.external_id r rfl grants j aIdx hG
      · rw [setGrantAt_get? grants j r aIdx j, if_pos rfl, hg]
        rfl
      · exact (applyGrantDefaults_idem g r aIdx).symm
  | none =>
      dsimp only
      refine ⟨grants.length, newGrantRec r aIdx, ?_, ?_, ?_⟩
      · exact firstIdx_append_of_none _ _ (by simp [extPred, newGrantRec,
          applyGrantDefaults]) grants hG
      · exact List.get?_concat_length grants _
      · exact (applyGrantDefaults_idem _ r aIdx).symm

/-- A settled agency stays settled through another record's agency
resolution, provided an equal acronym key implies an equal name. -/
theorem agency_preserved (ags : List AgencyRec) (r r' : RawGrant)
    (i : Nat) (a : AgencyRec)
    (hAi : firstIdx (acrPred (agencyKey r)) ags = some i)
    (hai : ags.get? i = some a) (han : a.name = r.agency_name)
    (hcomp : agencyKey r' = agencyKey r → r'.agency_name = r.agency_name)
    (hcode' : agencyKey r' ≠ "") :
    ∃ a2, firstIdx (acrPred (agencyKey r)) (resolveAgency ags r').1 = some i ∧
      (resolveAgency ags r').1.get? i = some a2 ∧
      a2.name = r.agency_name := by
  cases hA' : firstIdx (acrPred (agencyKey r')) ags with
  | some i' =>
      rw [resolveAgency_found_eq ags r' i' hcode' hA']
      by_cases hii : i = i'
      · subst hii
        obtain ⟨a1, ha1, hpa1⟩ := firstIdx_some _ ags i hA'
        obtain ⟨a0, ha0, hpa0⟩ := firstIdx_some _ ags i hAi
        rw [hai] at ha1 ha0
        injection ha1 with ha1
        injection ha0 with ha0
        subst ha1
        subst ha0
        simp only [acrPred, decide_eq_true_eq] at hpa1 hpa0
        have hkey : agencyKey r' = agencyKey r := by rw [← hpa1]; exact hpa0
        refine ⟨{ a with name := r'.agency_name }, ?_, ?_, ?_⟩
        · rw [firstIdx_acr_setAgencyName]
          exact hAi
        · rw [setAgencyName_get?, if_pos rfl, hai]
          rfl
        · show r'.agency_name = r.agency_name
          exact hcomp hkey
      · refine ⟨a, ?_, ?_, han⟩
        · rw [firstIdx_acr_setAgencyName]
          exact hAi
        · rw [setAgencyName_get?, if_neg hii]
          exact hai
  | none =>
      rw [resolveAgency_notfound_eq ags r' hcode' hA']
      refine ⟨a, firstIdx_append_of_some _ _ ags i hAi, ?_, han⟩
      rw [List.get?_append (get?_some_lt ags i a hai)]
      exact hai

/-- A settled grant stays settled through another record's grant upsert,
provided an equal external id implies an equal record (and then an equal
resolved agency index). -/
theorem upsertGrant_preserved (grants : List GrantRec) (r r' : RawGrant)
    (aIdx' i j : Nat) (g : GrantRec)
    (hGj : firstIdx (extPred r.external_id) grants = some j)
    (hgj : grants.get? j = some g) (hge : g = applyGrantDefaults g r i)
    (hext' : r'.external_id ≠ "")
    (hcomp : r'.external_id = r.external_id → r' = r)
    (haIdx : r'.external_id = r.external_id → aIdx' = i) :
    ∃ j2 g2,
      firstIdx (extPred r.external_id) (upsertGrantFM grants r' aIdx').1 =
        some j2 ∧
      (upsertGrantFM grants r' aIdx').1.get? j2 = some g2 ∧
      g2 = applyGrantDefaults g2 r i := by
  unfold upsertGrantFM
  rw [grantLookup_ext r' aIdx' hext']
  by_cases he : r'.external_id = r.external_id
  · have hr := hcomp he
    have hia := haIdx he
    subst hr
    rw [hia, hGj]
    dsimp only
    refine ⟨j, applyGrantDefaults g r' i, ?_, ?_, ?_⟩
    · exact firstIdx_ext_setGrantAt_self r'.external_id r' rfl grants j i hGj
    · rw [setGrantAt_get? grants j r' i j, if_pos rfl, hgj]
      rfl
    · exact (applyGrantDefaults_idem g r' i).symm
  · cases hG' : firstIdx (extPred r'.external_id) grants with
    | none =>
        dsimp only
        refine ⟨j, g, firstIdx_append_of_some _ _ grants j hGj, ?_, hge⟩
        rw [List.get?_append (get?_some_lt grants j g hgj)]
        exact hgj
    | some j' =>
        dsimp only
        have hne : j' ≠ j := by
          intro hjj
          subst hjj
          obtain ⟨g1, hg1, hp1⟩ := firstIdx_some _ grants j' hG'
          obtain ⟨g0, hg0, hp0⟩ := firstIdx_some _ grants j' hGj
          rw [hg0] at hg1
          injection hg1 with hg1
          subst hg1
          simp only [extPred, decide_eq_true_eq] at hp1 hp0
          exact he (by rw [← hp1]; exact hp0)
        refine ⟨j, g, ?_, ?_, hge⟩
        · exact firstIdx_ext_setGrantAt_other r.external_id r' he grants j j'
            aIdx' hne hGj
        · rw [setGrantAt_get? grants j' r' aIdx' j, if_neg (by omega)]
          exact hgj

/-- Processing a record with non-empty external id and agency code
settles it. -/
theorem done_establish (db : DB) (r : RawGrant) (hext : r.external_id ≠ "")
    (hcode : agencyKey r ≠ "") : Done (syncStepFM db r).1 r := by
  obtain ⟨i, a, hAi, hai, han, hi2⟩ := agency_establish db.agencies r hcode
  obtain ⟨j, g, hGj, hgj, hge⟩ :=
    upsertGrant_establish db.grants r (resolveAgency db.agencies r).2 hext
  rw [hi2] at hGj hgj hge
  unfold Done syncStepFM
  dsimp only
  rw [hi2]
  exact ⟨i, a, j, g, hAi, hai, han, hGj, hgj, hge⟩

/-- A settled record stays settled through the processing of a
compatible record. -/
theorem done_preserved (db : DB) (r r' : RawGrant) (hD : Done db r)
    (hcomp : compat r r') (hext : r.external_id ≠ "")
    (hext' : r'.external_id ≠ "") (hcode' : agencyKey r' ≠ "") :
    Done (syncStepFM db r').1 r := by
  obtain ⟨i, a, j, g, hAi, hai, han, hGj, hgj, hge⟩ := hD
  obtain ⟨a2, hAi2, hai2, han2⟩ :=
    agency_preserved db.agencies r r' i a hAi hai han hcomp.1 hcode'
  have haIdx : r'.external_id = r.external_id →
      (resolveAgency db.agencies r').2 = i := by
    intro he
    have hr := hcomp.2 he
    subst hr
    rw [resolveAgency_found_eq db.agencies r' i hcode' hAi]
  obtain ⟨j2, g2, hGj2, hgj2, hge2⟩ :=
    upsertGrant_preserved db.grants r r' (resolveAgency db.agencies r').2 i j
      g hGj hgj hge hext' hcomp.2 haIdx
  unfold Done syncStepFM
  dsimp only
  exact ⟨i, a2, j2, g2, hAi2, hai2, han2, hGj2, hgj2, hge2⟩

/-- Replaying a settled record is the identity on the state and counts as
an update, not a creation. -/
theorem done_fix (db : DB) (r : RawGrant) (hD : Done db r)
    (hext : r.external_id ≠ "") (hcode : agencyKey r ≠ "") :
    syncStepFM db r = (db, false) := by
  obtain ⟨i, a, j, g, hAi, hai, han, hGj, hgj, hge⟩ := hD
  have hag : setAgencyName db.agencies i r.agency_name = db.agencies := by
    rw [← han]
    exact setAgencyName_self db.agencies i a hai
  unfold syncStepFM
  rw [resolveAgency_found_eq db.agencies r i hcode hAi]
  dsimp only
  unfold upsertGrantFM
  rw [grantLookup_ext r i hext, hGj]
  dsimp only
  rw [hag, setGrantAt_self db.grants j r i g hgj hge.symm]

/-- A settled record stays settled through a whole compatible run. -/
theorem done_run (r : RawGrant) (hext : r.external_id ≠ "") :
    ∀ (rs' : List RawGrant) (db : DB), Done db r →
      (∀ r' ∈ rs', compat r r' ∧ r'.external_id ≠ "" ∧ agencyKey r' ≠ "") →
      Done (runDB db rs') r := by
  intro rs'
  induction rs' with
  | nil => intro db hD _; exact hD
  | cons r0 rest ih =>
      intro db hD hall
      have h0 := hall r0 (by simp)
      exact ih (syncStepFM db r0).1
        (done_preserved db r r0 hD h0.1 hext h0.2.1 h0.2.2)
        (fun r' hr' => hall r' (by simp [hr']))

/-- After one run, every record of a guarded, pairwise-compatible input
is settled. -/
theorem sync_all_done :
    ∀ (rs : List RawGrant) (db : DB),
      (∀ r ∈ rs, r.external_id ≠ "" ∧ agencyKey r ≠ "") →
      (∀ r ∈ rs, ∀ r' ∈ rs, compat r r') →
      ∀ r ∈ rs, Done (runDB db rs) r := by
  intro rs
  induction rs with
  | nil => intro db _ _ r hr; simp at hr
  | cons r0 rest ih =>
      intro db hH hC r hr
      rcases List.mem_cons.mp hr with he | hm
      · subst he
        have h0 := hH r (by simp)
        exact done_run r h0.1 rest (syncStepFM db r).1
          (done_establish db r h0.1 h0.2)
          (fun r' hr' =>
            ⟨hC r (by simp) r' (by simp [hr']),
             (hH r' (by simp [hr'])).1, (hH r' (by simp [hr'])).2⟩)
      · exact ih (syncStepFM db r0).1
          (fun x hx => hH x (by simp [hx]))
          (fun x hx y hy => hC x (by simp [hx]) y (by simp [hy])) r hm

/-- The database component of a counting first-match sync fold is
`runDB`. -/
theorem sync_fold_db :
    ∀ (rs : List RawGrant) (db : DB) (c u : Nat),
      (rs.foldl syncFoldStepFM (db, c, u)).1 = runDB db rs := by
  intro rs
  induction rs with
  | nil => intro db c u; rfl
  | cons r rest ih =>
      intro db c u
      simp only [List.foldl_cons]
      exact ih (syncStepFM db r).1 _ _

/-- A counting sync fold over steps that are all the identity reports no
creations and one update per record. -/
theorem sync_fold_fixed :
    ∀ (rs : List RawGrant) (db : DB) (c u : Nat),
      (∀ r ∈ rs, syncStepFM db r = (db, false)) →
      rs.foldl syncFoldStepFM (db, c, u) = (db, c, u + rs.length) := by
  intro rs
  induction rs with
  | nil => intro db c u _; rfl
  | cons r rest ih =>
      intro db c u h
      simp only [List.foldl_cons]
      have hstep : syncFoldStepFM (db, c, u) r = (db, c, u + 1) := by
        unfold syncFoldStepFM
        dsimp only
        rw [h r (by simp)]
        simp only [Bool.false_eq_true, if_false, Nat.add_zero]
      rw [hstep, ih db c (u + 1) (fun r' hr' => h r' (by simp [hr']))]
      have hlen : u + 1 + rest.length = u + (r :: rest).length := by
        simp only [List.length_cons]
        omega
      rw [hlen]

/-- A list with no element satisfying `p` has no first match. -/
theorem firstIdx_none_of_all {α : Type} (p : α → Bool) :
    ∀ (l : List α), (∀ x ∈ l, ¬ p x = true) → firstIdx p l = none := by
  intro l
  induction l with
  | nil => intro _; rfl
  | cons x xs ih =>
      intro h
      have hx : p x = false := by
        have h0 := h x (by simp)
        simp only [Bool.not_eq_true] at h0
        exact h0
      have hs := ih (fun y hy => h y (by simp [hy]))
      simp [firstIdx, hx, hs]

/-- No first match means no element matches. -/
theorem firstIdx_none_all {α : Type} (p : α → Bool) :
    ∀ (l : List α), firstIdx p l = none → ∀ x ∈ l, p x = false := by
  intro l
  induction l with
  | nil => intro _ x hx; simp at hx
  | cons y ys ih =>
      intro h x hx
      unfold firstIdx at h
      by_cases hy : p y = true
      · rw [if_pos hy] at h
        exact absurd h (by simp)
      · simp only [Bool.not_eq_true] at hy
        rw [if_neg (by simp [hy])] at h
        rcases List.mem_cons.mp hx with he | hm
        · subst he; exact hy
        · have hnone : firstIdx p ys = none := by
            cases hq : firstIdx p ys with
            | none => rfl
            | some k => rw [hq] at h; simp at h
          exact ih hnone x hm

/-- The one-row-per-id property only depends on the stored external
ids. -/
theorem extNodup_iff_map (l : List GrantRec) :
    extNodup l ↔
      (l.map (fun g => g.external_id)).Pairwise
        (fun e e' => e = e' → e = "") := by
  unfold extNodup
  rw [List.pairwise_map]

/-- The match-count bound `extNodup` gives for a non-empty external
id. -/
theorem extNodup_countP_le_one :
    ∀ (grants : List GrantRec), extNodup grants →
      ∀ (e : String), e ≠ "" → grants.countP (extPred e) ≤ 1 := by
  intro grants
  induction grants with
  | nil => intro _ e _; simp
  | cons g rest ih =>
      intro h e he
      unfold extNodup at h
      rw [List.pairwise_cons] at h
      rw [List.countP_cons]
      by_cases hg : extPred e g = true
      · have hz : rest.countP (extPred e) = 0 := by
          rw [List.countP_eq_zero]
          intro x hx hpx
          simp only [extPred, decide_eq_true_eq] at hg hpx
          have h2 := h.1 x hx (by rw [hg, hpx])
          rw [h2] at hg
          exact he hg.symm
        simp [hz, hg]
      · have h2 := ih h.2 e he
        simp only [Bool.not_eq_true] at hg
        simp only [hg, Bool.false_eq_true, if_false, Nat.add_zero]
        exact h2

/-- The raising grant upsert agrees with its first-match core when at
most one stored row matches the lookup. -/
theorem upsertGrant_eq_FM (grants : List GrantRec) (r : RawGrant)
    (aIdx : Nat)
    (h : grants.countP (fun g => grantLookup r aIdx g) ≤ 1) :
    upsertGrant grants r aIdx = .ok (upsertGrantFM grants r aIdx) := by
  unfold upsertGrant upsertGrantFM ormGetIdx
  cases hc : grants.countP (fun g => grantLookup r aIdx g) with
  | zero =>
      have hf : firstIdx (fun g => grantLookup r aIdx g) grants = none :=
        firstIdx_none_of_all _ grants (List.countP_eq_zero.mp hc)
      rw [hf]
  | succ n =>
      cases n with
      | zero =>
          dsimp only
          cases hfi : firstIdx (fun g => grantLookup r aIdx g) grants with
          | some i => rfl
          | none => rfl
      | succ m => omega

/-- A sync step over a record with a non-empty external id returns
normally, through the first-match core, on a one-row-per-id state. -/
theorem syncStep_eq_FM (db : DB) (r : RawGrant)
    (hext : r.external_id ≠ "") (hnd : extNodup db.grants) :
    syncStep db r = .ok (syncStepFM db r) := by
  have hcount : db.grants.countP
      (fun g => grantLookup r (resolveAgency db.agencies r).2 g) ≤ 1 := by
    rw [grantLookup_ext r (resolveAgency db.agencies r).2 hext]
    exact extNodup_countP_le_one db.grants hnd r.external_id hext
  unfold syncStep syncStepFM
  dsimp only
  rw [upsertGrant_eq_FM db.grants r (resolveAgency db.agencies r).2 hcount]

/-- Writing back a row's own external id leaves the stored external ids
unchanged. -/
theorem map_ext_setGrantAt :
    ∀ (l : List GrantRec) (i : Nat) (r : RawGrant) (aIdx : Nat),
      (∀ g, l.get? i = some g → g.external_id = r.external_id) →
      (setGrantAt l i r aIdx).map (fun g => g.external_id) =
        l.map (fun g => g.external_id) := by
  intro l
  induction l with
  | nil => intro i r aIdx _; rfl
  | cons x rest ih =>
      intro i r aIdx h
      cases i with
      | zero =>
          have hx := h x rfl
          simp [setGrantAt, applyGrantDefaults, hx]
      | succ ii =>
          have hs := ih ii r aIdx (fun g hg => h g hg)
          simp [setGrantAt, hs]

/-- A first-match sync step over a record with a non-empty external id
preserves the one-row-per-id state. -/
theorem extNodup_stepFM (db : DB) (r : RawGrant)
    (hext : r.external_id ≠ "") (hnd : extNodup db.grants) :
    extNodup (syncStepFM db r).1.grants := by
  unfold syncStepFM
  dsimp only
  unfold upsertGrantFM
  rw [grantLookup_ext r (resolveAgency db.agencies r).2 hext]
  cases hfi : firstIdx (extPred r.external_id) db.grants with
  | some i =>
      dsimp only
      obtain ⟨g, hg, hpg⟩ := firstIdx_some _ db.grants i hfi
      simp only [extPred, decide_eq_true_eq] at hpg
      have hrow : ∀ g0, db.grants.get? i = some g0 →
          g0.external_id = r.external_id := by
        intro g0 hg0
        rw [hg] at hg0
        injection hg0 with hg0
        rw [← hg0]
        exact hpg
      rw [extNodup_iff_map,
        map_ext_setGrantAt db.grants i r (resolveAgency db.agencies r).2 hrow,
        ← extNodup_iff_map]
      exact hnd
  | none =>
      dsimp only
      rw [extNodup_iff_map, List.map_append, List.pairwise_append]
      refine ⟨(extNodup_iff_map db.grants).mp hnd, by simp, ?_⟩
      intro e he e' he' hee
      exfalso
      obtain ⟨g0, hg0, hge⟩ := List.mem_map.mp he
      have hf := firstIdx_none_all _ db.grants hfi g0 hg0
      simp only [extPred, decide_eq_false_iff_not] at hf
      apply hf
      rw [hge, hee]
      simp only [List.map_cons, List.map_nil, List.mem_singleton] at he'
      rw [he']
      rfl

/-- On a one-row-per-id state, a run of records with non-empty external
ids returns normally through the first-match fold, and the final state
keeps the one-row-per-id property. -/
theorem sync_foldM_bridge :
    ∀ (rs : List RawGrant) (db : DB) (c u : Nat),
      (∀ r ∈ rs, r.external_id ≠ "") → extNodup db.grants →
      rs.foldlM syncFoldStep (db, c, u) =
        .ok (rs.foldl syncFoldStepFM (db, c, u)) ∧
      extNodup (runDB db rs).grants := by
  intro rs
  induction rs with
  | nil =>
      intro db c u _ hnd
      exact ⟨rfl, hnd⟩
  | cons r rest ih =>
      intro db c u hall hnd
      have hr := hall r (by simp)
      have hstep := syncStep_eq_FM db r hr hnd
      have hnd' : extNodup (syncStepFM db r).1.grants :=
        extNodup_stepFM db r hr hnd
      have ihr := ih (syncStepFM db r).1
        (c + (if (syncStepFM db r).2 then 1 else 0))
        (u + (if (syncStepFM db r).2 then 0 else 1))
        (fun x hx => hall x (by simp [hx])) hnd'
      constructor
      · rw [List.foldlM_cons, List.foldl_cons]
        have hred : syncFoldStep (db, c, u) r =
            .ok (syncFoldStepFM (db, c, u) r) := by
          unfold syncFoldStep syncFoldStepFM
          dsimp only
          rw [hstep]
        rw [hred]
        exact ihr.1
      · exact ihr.2

/-- C2 counterexample: on the two-record input `[rawWithId, rawNoId]` —
the second record lacks an external id but shares the first's title and
agency — the first run returns normally and stores one grant (the
id-less record's update clears the stored external id), but the second
run does not report `created = 0` over an unchanged state: it re-creates
the id-bearing record and then raises `MultipleObjectsReturned`, because
the id-less record's (title, agency) lookup now matches both stored
rows. -/
theorem c2_counterexample :
    (sync_grants_to_db ⟨[], []⟩ [rawWithId, rawNoId]).map
        (fun s => (s.created, s.db.grants.length)) = .ok (1, 1) ∧
    (sync_grants_to_db ⟨[], []⟩ [rawWithId, rawNoId]).map
        (fun s => sync_grants_to_db s.db [rawWithId, rawNoId]) =
      .ok (.error ()) := by
  refine ⟨by decide, by decide⟩

/-- C2 amended: the sync is idempotent under the guards the code needs:
every record carries a non-empty external id and a non-empty agency
code, records with the same (case-normalized) agency code agree on the
agency name, records with the same external id are identical, and the
starting state is one the constraints admit — at most one stored grant
per non-empty external id (`extNodup`) and pairwise-distinct stored
acronyms (`acrNodup`, the `unique=True` column constraint).  Then the
first run returns normally, and a second run over the state it leaves
also returns normally, reporting `created = 0`, counting every record as
updated, and leaving the persisted state exactly as the first run left
it.  Without the guards a second run can instead re-create records and
raise `MultipleObjectsReturned` (see the counterexample). -/
theorem c2_sync_guarded_idempotence (db : DB) (rs : List RawGrant)
    (H1 : ∀ r ∈ rs, r.external_id ≠ "")
    (H2 : ∀ r ∈ rs, agencyKey r ≠ "")
    (H3 : ∀ r ∈ rs, ∀ r' ∈ rs, agencyKey r' = agencyKey r →
      r'.agency_name = r.agency_name)
    (H4 : ∀ r ∈ rs, ∀ r' ∈ rs, r'.external_id = r.external_id → r' = r)
    (H5 : extNodup db.grants) (H6 : acrNodup db.agencies) :
    ∃ s1 : SyncResult,
      sync_grants_to_db db rs = .ok s1 ∧
      sync_grants_to_db s1.db rs =
        .ok { db := s1.db, created := 0, updated := rs.length,
              total := rs.length } := by
  have hC : ∀ r ∈ rs, ∀ r' ∈ rs, compat r r' :=
    fun r hr r' hr' => ⟨H3 r hr r' hr', H4 r hr r' hr'⟩
  have hH : ∀ r ∈ rs, r.external_id ≠ "" ∧ agencyKey r ≠ "" :=
    fun r hr => ⟨H1 r hr, H2 r hr⟩
  obtain ⟨hb1, hnd1⟩ := sync_foldM_bridge rs db 0 0 H1 H5
  obtain ⟨hb2, _⟩ := sync_foldM_bridge rs (runDB db rs) 0 0 H1 hnd1
  have hAll := sync_all_done rs db hH hC
  have hFix : ∀ r ∈ rs, syncStepFM (runDB db rs) r = (runDB db rs, false) :=
    fun r hr => done_fix (runDB db rs) r (hAll r hr) (H1 r hr) (H2 r hr)
  have h2 := sync_fold_fixed rs (runDB db rs) 0 0 hFix
  refine ⟨{ db := runDB db rs,
            created := (rs.foldl syncFoldStepFM (db, 0, 0)).2.1,
            updated := (rs.foldl syncFoldStepFM (db, 0, 0)).2.2,
            total := rs.length }, ?_, ?_⟩
  · unfold sync_grants_to_db
    rw [hb1]
    dsimp only
    rw [sync_fold_db rs db 0 0]
  · dsimp only
    unfold sync_grants_to_db
    rw [hb2, h2]
    dsimp only
    rw [Nat.zero_add]

/-- Witness for `c2_sync_guarded_idempotence`: syncing the two distinct
well-formed records twice from empty storage returns normally both
times, the second run creating nothing and leaving the state
unchanged. -/
theorem c2_sync_guarded_idempotence_witness :
    ∃ s1 : SyncResult,
      sync_grants_to_db ⟨[], []⟩ [rawWithId, rawOther] = .ok s1 ∧
      sync_grants_to_db s1.db [rawWithId, rawOther] =
        .ok { db := s1.db, created := 0,
              updated := ([rawWithId, rawOther] : List RawGrant).length,
              total := ([rawWithId, rawOther] : List RawGrant).length } :=
  c2_sync_guarded_idempotence ⟨[], []⟩ [rawWithId, rawOther]
    (by decide) (by decide) (by decide) (by decide)
    List.Pairwise.nil List.Pairwise.nil

end GrantMatch
